import Mathlib

/-!
Shallow embedding of `numenc-cpp/encoder_decoder.cpp` (the `numenc` Python
extension module).

The C file defines, for each numeric domain in
{int8, uint8, int16, uint16, int32, uint32, int64, uint64, float32, float64},
an encoder `from_<domain>` producing a sortable byte string and a decoder
`to_<domain>` reading it back.

Modelling choices, all taken from the source:

* A byte string is a `List Nat` whose entries are `< 256` (`isBytes`).
* The process-wide constant `ENDIANNESS` (the result of `endianness_impl`,
  which inspects the first in-memory byte of the 16-bit value `0x0001`) is
  `0` on a big-endian host and `1` on a little-endian host.  It is threaded
  through every operation as an explicit parameter `e : Nat`; every `if
  (ENDIANNESS == 0)` in the source becomes `if e = 0`.
* Python-level failures are `Except.error` of a `PyErr`: `typeError` models
  a raised `TypeError` and `valueError` a raised `ValueError`.  The
  `PyArg_ParseTuple` width constraints are part of each wrapper: an integer
  that does not fit the parsed C type makes `PyArg_ParseTuple` fail and the
  wrapper then raises `TypeError`, which we model as the first guard of each
  encoder.
* C bit operations on machine integers become `Nat` operations with the
  masks the code itself applies (`&&& 255` after every shift keeps each byte
  in range); arithmetic right shift of an in-range two's-complement value
  followed by `& 0xff` equals the same extraction on the value reduced
  modulo `2^(8w)`, which is how the signed encoders are rendered.
* A C `float`/`double` value is modelled by its IEEE-754 bit pattern
  `p : Nat` (`p < 2^32` resp. `p < 2^64`).  The only float-semantic fact the
  code uses is the comparison `input >= 0`, modelled bit-exactly by
  `f32GeZero`/`f64GeZero` (true iff the value is not a NaN and either the
  sign bit is clear or the pattern is negative zero).  The in-memory byte
  order of the `union` equals the host byte order, so on a host with
  `e = 0` the union holds the big-endian bytes of `p` and on `e = 1` the
  little-endian bytes.
-/

namespace Numenc

/-- Python exception kind raised by a codec wrapper. -/
inductive PyErr where
  | typeError
  | valueError
deriving DecidableEq

instance {ε α : Type} [DecidableEq ε] [DecidableEq α] :
    DecidableEq (Except ε α) := fun a b =>
  match a, b with
  | .error e1, .error e2 =>
    if h : e1 = e2 then isTrue (by rw [h])
    else isFalse (fun hc => h (Except.error.inj hc))
  | .error _, .ok _ => isFalse (fun hc => Except.noConfusion hc)
  | .ok _, .error _ => isFalse (fun hc => Except.noConfusion hc)
  | .ok v1, .ok v2 =>
    if h : v1 = v2 then isTrue (by rw [h])
    else isFalse (fun hc => h (Except.ok.inj hc))

/-- Well-formed byte string: every entry is an unsigned 8-bit value. -/
def isBytes (bs : List Nat) : Prop := ∀ b ∈ bs, b < 256

/-- The `ENDIANNESS == 0` buffer-filling loop
`buffer[i] = (input >> (i * 8)) & 0xff`: least significant byte first. -/
def bufLE (w u : Nat) : List Nat :=
  (List.range w).map (fun i => (u >>> (8 * i)) &&& 255)

/-- The `ENDIANNESS != 0` buffer-filling loop
`buffer[w - 1 - i] = (input >> (i * 8)) & 0xff`: most significant byte
first.  Entry `j` of the resulting buffer holds byte `w - 1 - j`. -/
def bufBE (w u : Nat) : List Nat :=
  (List.range w).map (fun j => (u >>> (8 * (w - 1 - j))) &&& 255)

/-- The shared integer buffer-filling code: `bufLE` on `ENDIANNESS == 0`,
`bufBE` otherwise. -/
def encBytes (e w u : Nat) : List Nat := if e = 0 then bufLE w u else bufBE w u

/-- `buffer[0] ^= 0x80`: flip the most significant bit of byte 0. -/
def flipMsb : List Nat → List Nat
  | [] => []
  | b :: rest => (b ^^^ 128) :: rest

/-- `buffer[0] |= 0x80`: set the most significant bit of byte 0. -/
def setMsb : List Nat → List Nat
  | [] => []
  | b :: rest => (b ||| 128) :: rest

/-- `(unsigned char) ~x`: bitwise complement of one byte. -/
def bnot (b : Nat) : Nat := 255 - (b &&& 255)

/-- The `ENDIANNESS == 0` reassembly loop
`decoded |= buffer[i] << (i * 8)`: byte 0 is least significant. -/
def leNum : List Nat → Nat
  | [] => 0
  | b :: rest => b ||| (leNum rest <<< 8)

/-- The `ENDIANNESS != 0` reassembly loop
`decoded |= buffer[w - 1 - i] << (i * 8)`: byte 0 is most significant,
i.e. least-significant-first reassembly of the reversed buffer. -/
def beNum (bs : List Nat) : Nat := leNum bs.reverse

/-- Shared reassembly: `leNum` on `ENDIANNESS == 0`, `beNum` otherwise. -/
def decNum (e : Nat) (bs : List Nat) : Nat :=
  if e = 0 then leNum bs else beNum bs

/-- Storing an assembled unsigned value into a signed C integer of the given
bit width: two's-complement wraparound. -/
def toSigned (width u : Nat) : Int :=
  if u % 2 ^ width < 2 ^ (width - 1) then ((u % 2 ^ width : Nat) : Int)
  else ((u % 2 ^ width : Nat) : Int) - 2 ^ width

/-- Unsigned lexicographic comparison of byte strings, as performed by a
byte-ordered store (and by Python `bytes` comparison). -/
def bytesLt : List Nat → List Nat → Bool
  | [], [] => false
  | [], _ :: _ => true
  | _ :: _, [] => false
  | a :: as, b :: bs => if a < b then true else if b < a then false else bytesLt as bs

/-! ## Integer codecs -/

/-- `from_int8`: parse format "i" (C `int`, 32 bits; failure raises
`TypeError`), explicit range check `[-128, 127]` raising `ValueError`, then
`buffer[0] = (char) input; buffer[0] ^= 0x80`. -/
def from_int8 (x : Int) : Except PyErr (List Nat) :=
  if x < -2147483648 ∨ 2147483647 < x then .error .typeError
  else if x < -128 ∨ 127 < x then .error .valueError
  else .ok (flipMsb [(x % 256).toNat])

/-- `to_int8`: exact length 1, then
`decoded = (int8_t)((unsigned char) input[0] ^ 0x80)`. -/
def to_int8 (bs : List Nat) : Except PyErr Int :=
  if bs.length ≠ 1 then .error .valueError
  else .ok (toSigned 8 (bs.headD 0 ^^^ 128))

/-- `from_uint8`: parse format "i", explicit range check `[0, 255]`, then
`buffer[0] = (unsigned char) input` (no bit manipulation). -/
def from_uint8 (x : Int) : Except PyErr (List Nat) :=
  if x < -2147483648 ∨ 2147483647 < x then .error .typeError
  else if x < 0 ∨ 255 < x then .error .valueError
  else .ok [x.toNat]

/-- `to_uint8`: exact length 1, then `decoded = (uint8_t) input[0]`. -/
def to_uint8 (bs : List Nat) : Except PyErr Nat :=
  if bs.length ≠ 1 then .error .valueError
  else .ok (bs.headD 0)

/-- `from_int16`: parse format "h" (C `short`; an out-of-range integer makes
`PyArg_ParseTuple` fail and the wrapper raises `TypeError`; there is no
explicit range check), then the shared buffer loop on the two's-complement
bytes followed by `buffer[0] ^= 0x80`. -/
def from_int16 (e : Nat) (x : Int) : Except PyErr (List Nat) :=
  if x < -32768 ∨ 32767 < x then .error .typeError
  else .ok (flipMsb (encBytes e 2 (x % 65536).toNat))

/-- `to_int16`: exact length 2, `buffer[0] = input[0] ^ 0x80`, remaining
bytes copied, then endianness-dependent reassembly into an `int16_t`. -/
def to_int16 (e : Nat) (bs : List Nat) : Except PyErr Int :=
  if bs.length ≠ 2 then .error .valueError
  else .ok (toSigned 16 (decNum e (flipMsb bs)))

/-- `from_uint16`: parse format "i", explicit range check `[0, 65535]`, then
the shared buffer loop (no bit manipulation). -/
def from_uint16 (e : Nat) (x : Int) : Except PyErr (List Nat) :=
  if x < -2147483648 ∨ 2147483647 < x then .error .typeError
  else if x < 0 ∨ 65535 < x then .error .valueError
  else .ok (encBytes e 2 x.toNat)

/-- `to_uint16`: exact length 2, endianness-dependent reassembly. -/
def to_uint16 (e : Nat) (bs : List Nat) : Except PyErr Nat :=
  if bs.length ≠ 2 then .error .valueError
  else .ok (decNum e bs)

/-- `from_int32`: parse format "i" (C `int`; out-of-range raises
`TypeError`, no explicit check), buffer loop, `buffer[0] ^= 0x80`. -/
def from_int32 (e : Nat) (x : Int) : Except PyErr (List Nat) :=
  if x < -2147483648 ∨ 2147483647 < x then .error .typeError
  else .ok (flipMsb (encBytes e 4 (x % 4294967296).toNat))

/-- `to_int32`: exact length 4, undo the sign-bit flip on byte 0, then
endianness-dependent reassembly into an `int32_t`. -/
def to_int32 (e : Nat) (bs : List Nat) : Except PyErr Int :=
  if bs.length ≠ 4 then .error .valueError
  else .ok (toSigned 32 (decNum e (flipMsb bs)))

/-- `from_uint32`: parse format "L" (C `long long`, 64 bits), explicit range
check `[0, 4294967295]` raising `ValueError`, then the buffer loop. -/
def from_uint32 (e : Nat) (x : Int) : Except PyErr (List Nat) :=
  if x < -9223372036854775808 ∨ 9223372036854775807 < x then .error .typeError
  else if x < 0 ∨ 4294967295 < x then .error .valueError
  else .ok (encBytes e 4 x.toNat)

/-- `to_uint32`: exact length 4, endianness-dependent reassembly. -/
def to_uint32 (e : Nat) (bs : List Nat) : Except PyErr Nat :=
  if bs.length ≠ 4 then .error .valueError
  else .ok (decNum e bs)

/-- `from_int64`: parse format "L" (C `long long`; out-of-range raises
`TypeError`, no explicit check), buffer loop, `buffer[0] ^= 0x80`. -/
def from_int64 (e : Nat) (x : Int) : Except PyErr (List Nat) :=
  if x < -9223372036854775808 ∨ 9223372036854775807 < x then .error .typeError
  else .ok (flipMsb (encBytes e 8 (x % 18446744073709551616).toNat))

/-- `to_int64`: exact length 8, undo the sign-bit flip on byte 0, then
endianness-dependent reassembly into an `int64_t`. -/
def to_int64 (e : Nat) (bs : List Nat) : Except PyErr Int :=
  if bs.length ≠ 8 then .error .valueError
  else .ok (toSigned 64 (decNum e (flipMsb bs)))

/-- `from_uint64`: the argument is converted with
`PyLong_AsUnsignedLongLong`; a negative value or one `≥ 2^64` makes it fail,
the wrapper clears that error and raises `TypeError`.  No `ValueError` path
exists.  In range, the buffer loop runs with no bit manipulation. -/
def from_uint64 (e : Nat) (x : Int) : Except PyErr (List Nat) :=
  if x < 0 ∨ 18446744073709551615 < x then .error .typeError
  else .ok (encBytes e 8 x.toNat)

/-- `to_uint64`: exact length 8, endianness-dependent reassembly. -/
def to_uint64 (e : Nat) (bs : List Nat) : Except PyErr Nat :=
  if bs.length ≠ 8 then .error .valueError
  else .ok (decNum e bs)

/-! ## Float codecs -/

/-- The bit pattern `p` of a 32-bit IEEE-754 float denotes a NaN: exponent
field all ones and nonzero mantissa. -/
def f32IsNan (p : Nat) : Prop := p / 2 ^ 23 % 256 = 255 ∧ p % 2 ^ 23 ≠ 0

instance (p : Nat) : Decidable (f32IsNan p) := by
  unfold f32IsNan; exact inferInstance

/-- The C comparison `input >= 0` on the float with bit pattern `p`: false
for every NaN, true when the sign bit is clear, and true for negative zero
(`p = 2^31`). -/
def f32GeZero (p : Nat) : Prop := ¬f32IsNan p ∧ (p / 2 ^ 31 = 0 ∨ p = 2 ^ 31)

instance (p : Nat) : Decidable (f32GeZero p) := by
  unfold f32GeZero; exact inferInstance

/-- The bit pattern `p` of a 64-bit IEEE-754 float denotes a NaN. -/
def f64IsNan (p : Nat) : Prop := p / 2 ^ 52 % 2048 = 2047 ∧ p % 2 ^ 52 ≠ 0

instance (p : Nat) : Decidable (f64IsNan p) := by
  unfold f64IsNan; exact inferInstance

/-- The C comparison `input >= 0` on the double with bit pattern `p`. -/
def f64GeZero (p : Nat) : Prop := ¬f64IsNan p ∧ (p / 2 ^ 63 = 0 ∨ p = 2 ^ 63)

instance (p : Nat) : Decidable (f64GeZero p) := by
  unfold f64GeZero; exact inferInstance

/-- `from_float32`: the union holds the in-memory bytes of the pattern
(big-endian bytes on an `e = 0` host, little-endian bytes otherwise); the
copy loop lays them out into the output buffer most-significant first in
both cases.  `input >= 0` sets the top bit of byte 0; otherwise every byte
is complemented. -/
def from_float32 (e : Nat) (p : Nat) : Except PyErr (List Nat) :=
  let buffer := if e = 0 then bufBE 4 p else (bufLE 4 p).reverse
  if f32GeZero p then .ok (setMsb buffer) else .ok (buffer.map bnot)

/-- `to_float32`: exact length 4; if the top bit of byte 0 is set, clear it
and reassemble, else complement every byte and reassemble; the reassembled
buffer is read back through the union in host byte order. -/
def to_float32 (e : Nat) (bs : List Nat) : Except PyErr Nat :=
  if bs.length ≠ 4 then .error .valueError
  else
    let buffer :=
      if bs.headD 0 &&& 128 ≠ 0 then
        (if e = 0 then flipMsb bs else (flipMsb bs).reverse)
      else
        (if e = 0 then bs.map bnot else (bs.map bnot).reverse)
    .ok (if e = 0 then beNum buffer else leNum buffer)

/-- `from_float64`: as `from_float32` with 8 bytes. -/
def from_float64 (e : Nat) (p : Nat) : Except PyErr (List Nat) :=
  let buffer := if e = 0 then bufBE 8 p else (bufLE 8 p).reverse
  if f64GeZero p then .ok (setMsb buffer) else .ok (buffer.map bnot)

/-- `to_float64`: as `to_float32` with 8 bytes. -/
def to_float64 (e : Nat) (bs : List Nat) : Except PyErr Nat :=
  if bs.length ≠ 8 then .error .valueError
  else
    let buffer :=
      if bs.headD 0 &&& 128 ≠ 0 then
        (if e = 0 then flipMsb bs else (flipMsb bs).reverse)
      else
        (if e = 0 then bs.map bnot else (bs.map bnot).reverse)
    .ok (if e = 0 then beNum buffer else leNum buffer)

/-! ## Domain orderings and equalities (the specification's "natural
numeric ordering" and "domain equality" for the float domains, expressed on
bit patterns) -/

/-- Numeric ordering key of a non-NaN 32-bit float pattern `p < 2^32`: the
magnitude bits, negated when the sign bit is set.  For non-NaN patterns,
`f32Key p < f32Key q` iff the float value of `p` is less than that of `q`,
and the two zero patterns share the key `0`. -/
def f32Key (p : Nat) : Int :=
  if p / 2 ^ 31 = 0 then (p : Int) else -((p % 2 ^ 31 : Nat) : Int)

/-- Numeric ordering key of a non-NaN 64-bit float pattern. -/
def f64Key (p : Nat) : Int :=
  if p / 2 ^ 63 = 0 then (p : Int) else -((p % 2 ^ 63 : Nat) : Int)

/-- IEEE-754 equality of two 32-bit patterns: false if either is NaN,
otherwise equal patterns or both zero patterns (`+0.0 == -0.0`). -/
def f32Eq (p q : Nat) : Prop :=
  ¬f32IsNan p ∧ ¬f32IsNan q ∧
    (p = q ∨ ((p = 0 ∨ p = 2 ^ 31) ∧ (q = 0 ∨ q = 2 ^ 31)))

instance (p q : Nat) : Decidable (f32Eq p q) := by
  unfold f32Eq; exact inferInstance

/-- IEEE-754 equality of two 64-bit patterns. -/
def f64Eq (p q : Nat) : Prop :=
  ¬f64IsNan p ∧ ¬f64IsNan q ∧
    (p = q ∨ ((p = 0 ∨ p = 2 ^ 63) ∧ (q = 0 ∨ q = 2 ^ 63)))

instance (p q : Nat) : Decidable (f64Eq p q) := by
  unfold f64Eq; exact inferInstance

/-! ## Arithmetic views of the byte-level operations (used to state and
prove the lemmas; `leNumA`/`beNumA` are the plain place-value sums that the
bit-twiddling reassembly loops compute) -/

/-- Place-value sum of a little-endian byte string. -/
def leNumA : List Nat → Nat
  | [] => 0
  | b :: rest => b + 256 * leNumA rest

/-- Place-value sum of a big-endian byte string. -/
def beNumA : List Nat → Nat
  | [] => 0
  | b :: rest => b * 256 ^ rest.length + beNumA rest

/-! ## Definitions following the specification's words (for the refinement
claims about byte layout) -/

/-- Following the spec: the two's-complement big-endian byte representation
of `x` at width `w` — byte `j` (0-indexed from the most significant) holds
bits `[8w-8(j+1), 8w-8j)`. -/
def specTwosBE (w : Nat) (x : Int) : List Nat :=
  (List.range w).map (fun j => (x % (2 ^ (8 * w))).toNat / 2 ^ (8 * (w - 1 - j)) % 256)

/-- Following the spec (claim C4): signed encode is the two's-complement
big-endian bytes with the most significant bit of byte 0 flipped. -/
def specSignedEncode (w : Nat) (x : Int) : List Nat := flipMsb (specTwosBE w x)

/-- Following the spec (claim C4): signed decode undoes the flip on byte 0
and interprets the result as a big-endian two's-complement integer. -/
def specSignedDecode (w : Nat) (bs : List Nat) : Int :=
  if beNumA (flipMsb bs) < 2 ^ (8 * w - 1) then (beNumA (flipMsb bs) : Int)
  else (beNumA (flipMsb bs) : Int) - 2 ^ (8 * w)

/-- Following the spec (claim C3): the big-endian byte representation of an
unsigned value — byte `j` holds bits `[8w-8(j+1), 8w-8j)`. -/
def specUnsignedBE (w u : Nat) : List Nat :=
  (List.range w).map (fun j => u / 2 ^ (8 * (w - 1 - j)) % 256)

/-- Following the spec (claim C7): float encode is the big-endian IEEE-754
bit pattern with the top bit of byte 0 set when `value >= 0`, and the
bytewise complement of the pattern when `value < 0` (32-bit). -/
def specFloatEnc32 (p : Nat) : List Nat :=
  if f32GeZero p then setMsb (specUnsignedBE 4 p)
  else (specUnsignedBE 4 p).map bnot

/-- Following the spec (claim C7): float encode, 64-bit. -/
def specFloatEnc64 (p : Nat) : List Nat :=
  if f64GeZero p then setMsb (specUnsignedBE 8 p)
  else (specUnsignedBE 8 p).map bnot

/-! ## Byte-level bridge lemmas -/

theorem and255 (n : Nat) : n &&& 255 = n % 256 := by
  have h := Nat.and_pow_two_sub_one_eq_mod n 8
  norm_num at h
  exact h

theorem and255_lt (n : Nat) : n &&& 255 < 256 := by
  rw [and255]
  exact Nat.mod_lt _ (by norm_num)

set_option maxRecDepth 4096 in
theorem xor128 : ∀ b < 256, b ^^^ 128 = if b < 128 then b + 128 else b - 128 := by decide

set_option maxRecDepth 4096 in
theorem or128 : ∀ b < 256, b ||| 128 = if b < 128 then b + 128 else b := by decide

set_option maxRecDepth 4096 in
theorem and128 : ∀ b < 256, b &&& 128 = if b < 128 then 0 else 128 := by decide

theorem orShift (b x : Nat) (hb : b < 256) : b ||| x <<< 8 = b + 256 * x := by
  have hb' : b < 2 ^ 8 := by simpa using hb
  rw [Nat.shiftLeft_eq, Nat.or_comm, Nat.mul_comm x (2 ^ 8),
    ← Nat.mul_add_lt_is_or hb' x]
  norm_num
  omega

/-! ## Byte strings: structural lemmas -/

theorem isBytes_head {b : Nat} {rest : List Nat} (h : isBytes (b :: rest)) :
    b < 256 :=
  h b (List.mem_cons_self _ _)

theorem isBytes_tail {b : Nat} {rest : List Nat} (h : isBytes (b :: rest)) :
    isBytes rest :=
  fun x hx => h x (List.mem_cons_of_mem _ hx)

theorem isBytes_reverse {bs : List Nat} (h : isBytes bs) : isBytes bs.reverse :=
  fun b hb => h b (List.mem_reverse.mp hb)

theorem leNum_eq_A : ∀ bs : List Nat, isBytes bs → leNum bs = leNumA bs
  | [], _ => rfl
  | b :: rest, h => by
    rw [leNum, leNumA, leNum_eq_A rest (isBytes_tail h), orShift _ _ (isBytes_head h)]

theorem leNumA_append (bs : List Nat) (a : Nat) :
    leNumA (bs ++ [a]) = leNumA bs + 256 ^ bs.length * a := by
  induction bs with
  | nil => simp [leNumA]
  | cons b rest ih => simp [leNumA, ih]; ring

theorem leNumA_reverse (bs : List Nat) : leNumA bs.reverse = beNumA bs := by
  induction bs with
  | nil => rfl
  | cons b rest ih =>
    rw [List.reverse_cons, leNumA_append, beNumA, ih, List.length_reverse]
    ring

theorem beNumA_reverse (bs : List Nat) : beNumA bs.reverse = leNumA bs := by
  rw [← leNumA_reverse bs.reverse, List.reverse_reverse]

theorem beNum_eq_A (bs : List Nat) (h : isBytes bs) : beNum bs = beNumA bs := by
  rw [beNum, leNum_eq_A _ (isBytes_reverse h), leNumA_reverse]

theorem leNumA_lt : ∀ bs : List Nat, isBytes bs → leNumA bs < 256 ^ bs.length
  | [], _ => by simp [leNumA]
  | b :: rest, h => by
    have ih := leNumA_lt rest (isBytes_tail h)
    have hb := isBytes_head h
    rw [leNumA, List.length_cons, pow_succ, Nat.mul_comm (256 ^ rest.length) 256]
    omega

theorem beNumA_lt (bs : List Nat) (h : isBytes bs) : beNumA bs < 256 ^ bs.length := by
  rw [← leNumA_reverse, ← List.length_reverse]
  exact leNumA_lt _ (isBytes_reverse h)

theorem bytesLt_eq : ∀ as bs : List Nat, as.length = bs.length → isBytes as →
    isBytes bs → bytesLt as bs = decide (beNumA as < beNumA bs)
  | [], [], _, _, _ => by simp [bytesLt, beNumA]
  | [], _ :: _, hlen, _, _ => by simp at hlen
  | _ :: _, [], hlen, _, _ => by simp at hlen
  | a :: as, b :: bs, hlen, ha, hb => by
    simp only [List.length_cons, Nat.add_right_cancel_iff] at hlen
    have hA := beNumA_lt as (isBytes_tail ha)
    have hB := beNumA_lt bs (isBytes_tail hb)
    have ih := bytesLt_eq as bs hlen (isBytes_tail ha) (isBytes_tail hb)
    rw [bytesLt, beNumA, beNumA, ih, hlen]
    rw [hlen] at hA
    rcases Nat.lt_trichotomy a b with h | h | h
    · rw [if_pos h]
      symm
      rw [decide_eq_true_eq]
      calc a * 256 ^ bs.length + beNumA as
          < a * 256 ^ bs.length + 256 ^ bs.length := by omega
        _ = (a + 1) * 256 ^ bs.length := by ring
        _ ≤ b * 256 ^ bs.length := Nat.mul_le_mul_right _ h
        _ ≤ b * 256 ^ bs.length + beNumA bs := Nat.le_add_right _ _
    · subst h
      rw [if_neg (lt_irrefl a), if_neg (lt_irrefl a)]
      congr 1
      exact propext (by constructor <;> intro h' <;> omega)
    · rw [if_neg (Nat.lt_asymm h), if_pos h]
      symm
      rw [decide_eq_false_iff_not]
      intro hcon
      have hexp : (b + 1) * 256 ^ bs.length = b * 256 ^ bs.length + 256 ^ bs.length := by
        ring
      have hstep : b * 256 ^ bs.length + beNumA bs < (b + 1) * 256 ^ bs.length := by
        omega
      have h2 : (b + 1) * 256 ^ bs.length ≤ a * 256 ^ bs.length :=
        Nat.mul_le_mul_right _ h
      omega

theorem flipMsb_flipMsb (bs : List Nat) : flipMsb (flipMsb bs) = bs := by
  cases bs with
  | nil => rfl
  | cons b rest => simp [flipMsb, Nat.xor_assoc]

theorem length_flipMsb (bs : List Nat) : (flipMsb bs).length = bs.length := by
  cases bs <;> simp [flipMsb]

theorem isBytes_flipMsb {bs : List Nat} (h : isBytes bs) : isBytes (flipMsb bs) := by
  cases bs with
  | nil => exact h
  | cons b rest =>
    intro x hx
    rcases List.mem_cons.mp hx with rfl | hx
    · have : b ^^^ 128 < 2 ^ 8 :=
        Nat.xor_lt_two_pow (by simpa using isBytes_head h) (by norm_num)
      simpa using this
    · exact isBytes_tail h x hx

theorem length_setMsb (bs : List Nat) : (setMsb bs).length = bs.length := by
  cases bs <;> simp [setMsb]

theorem isBytes_setMsb {bs : List Nat} (h : isBytes bs) : isBytes (setMsb bs) := by
  cases bs with
  | nil => exact h
  | cons b rest =>
    intro x hx
    rcases List.mem_cons.mp hx with rfl | hx
    · have : b ||| 128 < 2 ^ 8 :=
        Nat.or_lt_two_pow (by simpa using isBytes_head h) (by norm_num)
      simpa using this
    · exact isBytes_tail h x hx

theorem bnot_lt (b : Nat) : bnot b < 256 := by
  unfold bnot
  omega

theorem isBytes_map_bnot (bs : List Nat) : isBytes (bs.map bnot) := by
  intro x hx
  simp only [List.mem_map] at hx
  obtain ⟨y, _, rfl⟩ := hx
  exact bnot_lt y

/-! ## Buffer-filling loops: structure and values -/

theorem length_bufLE (w u : Nat) : (bufLE w u).length = w := by
  simp [bufLE]

theorem length_bufBE (w u : Nat) : (bufBE w u).length = w := by
  simp [bufBE]

theorem isBytes_bufLE (w u : Nat) : isBytes (bufLE w u) := by
  intro b hb
  simp only [bufLE, List.mem_map] at hb
  obtain ⟨i, _, rfl⟩ := hb
  exact and255_lt _

theorem isBytes_bufBE (w u : Nat) : isBytes (bufBE w u) := by
  intro b hb
  simp only [bufBE, List.mem_map] at hb
  obtain ⟨i, _, rfl⟩ := hb
  exact and255_lt _

theorem bufLE_succ (w u : Nat) : bufLE (w + 1) u = (u &&& 255) :: bufLE w (u >>> 8) := by
  unfold bufLE
  rw [List.range_succ_eq_map, List.map_cons, List.map_map]
  have hhead : u >>> (8 * 0) &&& 255 = u &&& 255 := by norm_num
  have htail : List.map ((fun i => u >>> (8 * i) &&& 255) ∘ Nat.succ) (List.range w)
      = List.map (fun i => u >>> 8 >>> (8 * i) &&& 255) (List.range w) := by
    apply List.map_congr_left
    intro i _
    simp only [Function.comp_apply]
    rw [show 8 * Nat.succ i = 8 + 8 * i by omega, Nat.shiftRight_add]
  rw [hhead, htail]

theorem bufBE_cons (w u : Nat) :
    bufBE (w + 1) u = ((u >>> (8 * w)) &&& 255) :: bufBE w u := by
  unfold bufBE
  rw [List.range_succ_eq_map, List.map_cons, List.map_map]
  have hhead : u >>> (8 * (w + 1 - 1 - 0)) &&& 255 = u >>> (8 * w) &&& 255 := by
    norm_num
  have htail : List.map ((fun j => u >>> (8 * (w + 1 - 1 - j)) &&& 255) ∘ Nat.succ)
      (List.range w) = List.map (fun j => u >>> (8 * (w - 1 - j)) &&& 255)
      (List.range w) := by
    apply List.map_congr_left
    intro i _
    simp only [Function.comp_apply]
    rw [show w + 1 - 1 - Nat.succ i = w - 1 - i by omega]
  rw [hhead, htail]

theorem bufBE_append (w u : Nat) :
    bufBE (w + 1) u = bufBE w (u >>> 8) ++ [u &&& 255] := by
  unfold bufBE
  rw [List.range_succ, List.map_append]
  have hlast : List.map (fun j => u >>> (8 * (w + 1 - 1 - j)) &&& 255) [w]
      = [u &&& 255] := by
    norm_num
  have hinit : List.map (fun j => u >>> (8 * (w + 1 - 1 - j)) &&& 255) (List.range w)
      = List.map (fun j => u >>> 8 >>> (8 * (w - 1 - j)) &&& 255) (List.range w) := by
    apply List.map_congr_left
    intro i hi
    simp only [List.mem_range] at hi
    rw [show 8 * (w + 1 - 1 - i) = 8 + 8 * (w - 1 - i) by omega, Nat.shiftRight_add]
  rw [hlast, hinit]

theorem bufBE_eq_reverse (w : Nat) : ∀ u, bufBE w u = (bufLE w u).reverse := by
  induction w with
  | zero => intro u; rfl
  | succ w ih =>
    intro u
    rw [bufBE_append, bufLE_succ, List.reverse_cons, ih]

theorem leNumA_bufLE (w : Nat) : ∀ u, leNumA (bufLE w u) = u % 2 ^ (8 * w) := by
  induction w with
  | zero => intro u; simp [bufLE, leNumA, Nat.mod_one]
  | succ w ih =>
    intro u
    rw [bufLE_succ, leNumA, ih, and255, Nat.shiftRight_eq_div_pow]
    have hsplit : 2 ^ (8 * (w + 1)) = 256 * 2 ^ (8 * w) := by
      rw [show 8 * (w + 1) = 8 + 8 * w by ring, pow_add]
      norm_num
    rw [hsplit, Nat.mod_mul]

theorem beNumA_bufBE (w u : Nat) : beNumA (bufBE w u) = u % 2 ^ (8 * w) := by
  rw [bufBE_eq_reverse, beNumA_reverse, leNumA_bufLE]

theorem bufLE_leNumA : ∀ bs : List Nat, isBytes bs → bufLE bs.length (leNumA bs) = bs
  | [], _ => rfl
  | b :: rest, h => by
    have hb := isBytes_head h
    rw [List.length_cons, bufLE_succ]
    congr 1
    · rw [and255, leNumA]
      omega
    · rw [Nat.shiftRight_eq_div_pow, leNumA]
      norm_num
      have hdiv : (b + 256 * leNumA rest) / 256 = leNumA rest := by omega
      rw [hdiv]
      exact bufLE_leNumA rest (isBytes_tail h)

theorem bufBE_beNumA (bs : List Nat) (h : isBytes bs) :
    bufBE bs.length (beNumA bs) = bs := by
  rw [bufBE_eq_reverse, ← leNumA_reverse, ← List.length_reverse,
    bufLE_leNumA _ (isBytes_reverse h), List.reverse_reverse]

theorem bufLE_mod (w : Nat) : ∀ u, bufLE w (u % 2 ^ (8 * w)) = bufLE w u := by
  induction w with
  | zero => intro u; rfl
  | succ w ih =>
    intro u
    have hsplit : 2 ^ (8 * (w + 1)) = 256 * 2 ^ (8 * w) := by
      rw [show 8 * (w + 1) = 8 + 8 * w by ring, pow_add]
      norm_num
    rw [bufLE_succ, bufLE_succ]
    congr 1
    · rw [and255, and255, hsplit, Nat.mod_mod_of_dvd _ ⟨2 ^ (8 * w), rfl⟩]
    · rw [Nat.shiftRight_eq_div_pow, Nat.shiftRight_eq_div_pow]
      norm_num
      rw [hsplit, Nat.mod_mul_right_div_self, ← ih (u / 256)]

theorem bufBE_mod (w u : Nat) : bufBE w (u % 2 ^ (8 * w)) = bufBE w u := by
  rw [bufBE_eq_reverse, bufBE_eq_reverse, bufLE_mod]

/-! ## Shared encode/decode loops -/

theorem length_encBytes (e w u : Nat) : (encBytes e w u).length = w := by
  unfold encBytes
  split
  · exact length_bufLE w u
  · exact length_bufBE w u

theorem isBytes_encBytes (e w u : Nat) : isBytes (encBytes e w u) := by
  unfold encBytes
  split
  · exact isBytes_bufLE w u
  · exact isBytes_bufBE w u

theorem decNum_encBytes (e w u : Nat) : decNum e (encBytes e w u) = u % 2 ^ (8 * w) := by
  unfold decNum encBytes
  split
  · rw [leNum_eq_A _ (isBytes_bufLE _ _), leNumA_bufLE]
  · rw [beNum_eq_A _ (isBytes_bufBE _ _), beNumA_bufBE]

theorem encBytes_decNum (e : Nat) (bs : List Nat) (h : isBytes bs) :
    encBytes e bs.length (decNum e bs) = bs := by
  unfold decNum encBytes
  split
  · rw [leNum_eq_A _ h, bufLE_leNumA _ h]
  · rw [beNum_eq_A _ h, bufBE_beNumA _ h]

theorem encBytes_one (w u : Nat) : encBytes 1 w u = bufBE w u := by
  simp [encBytes]

/-! ## Numeric effect of the bit transforms on big-endian buffers -/

theorem pow256 (w : Nat) : (256 : Nat) ^ w = 2 ^ (8 * w) := by
  rw [show (256 : Nat) = 2 ^ 8 by norm_num, ← pow_mul]

theorem beNumA_cons (b : Nat) (rest : List Nat) :
    beNumA (b :: rest) = b * 256 ^ rest.length + beNumA rest := rfl

theorem beNumA_flipMsb_bufBE (w u : Nat) :
    beNumA (flipMsb (bufBE (w + 1) u)) =
      ((u / 2 ^ (8 * w) % 256) ^^^ 128) * 2 ^ (8 * w) + u % 2 ^ (8 * w) := by
  rw [bufBE_cons, flipMsb, beNumA_cons, length_bufBE, beNumA_bufBE, pow256,
    Nat.shiftRight_eq_div_pow, and255]

theorem beNumA_setMsb_bufBE (w u : Nat) :
    beNumA (setMsb (bufBE (w + 1) u)) =
      ((u / 2 ^ (8 * w) % 256) ||| 128) * 2 ^ (8 * w) + u % 2 ^ (8 * w) := by
  rw [bufBE_cons, setMsb, beNumA_cons, length_bufBE, beNumA_bufBE, pow256,
    Nat.shiftRight_eq_div_pow, and255]

theorem beNumA_bufBE_plain (w u : Nat) :
    beNumA (bufBE (w + 1) u) =
      (u / 2 ^ (8 * w) % 256) * 2 ^ (8 * w) + u % 2 ^ (8 * w) := by
  rw [bufBE_cons, beNumA_cons, length_bufBE, beNumA_bufBE, pow256,
    Nat.shiftRight_eq_div_pow, and255]

theorem beNumA_map_bnot_bufBE (w : Nat) :
    ∀ u, beNumA ((bufBE w u).map bnot) = 2 ^ (8 * w) - 1 - u % 2 ^ (8 * w) := by
  induction w with
  | zero => intro u; simp [bufBE, beNumA, Nat.mod_one]
  | succ w ih =>
    intro u
    rw [bufBE_cons, List.map_cons, beNumA_cons, List.length_map, length_bufBE,
      ih u, pow256]
    have hbnot : bnot ((u >>> (8 * w)) &&& 255) = 255 - u / 2 ^ (8 * w) % 256 := by
      rw [bnot, Nat.shiftRight_eq_div_pow, and255, and255,
        Nat.mod_mod_of_dvd _ dvd_rfl]
    rw [hbnot]
    have hsplit : 2 ^ (8 * (w + 1)) = 2 ^ (8 * w) * 256 := by
      rw [show 8 * (w + 1) = 8 * w + 8 by ring, pow_add]
      norm_num
    rw [hsplit, Nat.mod_mul]
    have hh : u / 2 ^ (8 * w) % 256 ≤ 255 := by
      have := Nat.mod_lt (u / 2 ^ (8 * w)) (show 0 < 256 by norm_num)
      omega
    have hr : u % 2 ^ (8 * w) < 2 ^ (8 * w) :=
      Nat.mod_lt _ (Nat.pos_pow_of_pos _ (by norm_num))
    have ht : 1 ≤ 2 ^ (8 * w) := Nat.one_le_two_pow
    rw [Nat.sub_mul, Nat.mul_comm (2 ^ (8 * w)) (u / 2 ^ (8 * w) % 256)]
    have hmul : (u / 2 ^ (8 * w) % 256) * 2 ^ (8 * w) ≤ 255 * 2 ^ (8 * w) :=
      Nat.mul_le_mul_right _ hh
    omega

/-! ## `toSigned` at the four concrete widths -/

theorem toSigned8_eq (u : Nat) : toSigned 8 u =
    if u % 256 < 128 then ((u % 256 : Nat) : Int) else ((u % 256 : Nat) : Int) - 256 := by
  unfold toSigned
  norm_num

theorem toSigned16_eq (u : Nat) : toSigned 16 u =
    if u % 65536 < 32768 then ((u % 65536 : Nat) : Int)
    else ((u % 65536 : Nat) : Int) - 65536 := by
  unfold toSigned
  norm_num

theorem toSigned32_eq (u : Nat) : toSigned 32 u =
    if u % 4294967296 < 2147483648 then ((u % 4294967296 : Nat) : Int)
    else ((u % 4294967296 : Nat) : Int) - 4294967296 := by
  unfold toSigned
  norm_num

theorem toSigned64_eq (u : Nat) : toSigned 64 u =
    if u % 18446744073709551616 < 9223372036854775808 then
      ((u % 18446744073709551616 : Nat) : Int)
    else ((u % 18446744073709551616 : Nat) : Int) - 18446744073709551616 := by
  unfold toSigned
  norm_num

/-- Two well-formed byte strings of equal length with the same big-endian
value are equal. -/
theorem eq_of_beNumA (as bs : List Nat) (ha : isBytes as) (hb : isBytes bs)
    (hlen : as.length = bs.length) (h : beNumA as = beNumA bs) : as = bs := by
  rw [← bufBE_beNumA as ha, ← bufBE_beNumA bs hb, hlen, h]

theorem decNum_lt (e : Nat) (bs : List Nat) (h : isBytes bs) :
    decNum e bs < 256 ^ bs.length := by
  unfold decNum
  split
  · rw [leNum_eq_A _ h]
    exact leNumA_lt _ h
  · rw [beNum_eq_A _ h]
    exact beNumA_lt _ h

theorem decNum_eq_beNumA (bs : List Nat) (h : isBytes bs) :
    decNum 1 bs = beNumA bs := by
  unfold decNum
  rw [if_neg one_ne_zero, beNum_eq_A _ h]

theorem headD_bufBE (w u : Nat) : (bufBE (w + 1) u).headD 0 = u / 2 ^ (8 * w) % 256 := by
  rw [bufBE_cons]
  simp [Nat.shiftRight_eq_div_pow, and255]

theorem headD_bufBE4 (u : Nat) : (bufBE 4 u).headD 0 = u / 16777216 % 256 := by
  have h := headD_bufBE 3 u
  norm_num at h ⊢
  exact h

theorem headD_bufBE8 (u : Nat) : (bufBE 8 u).headD 0 = u / 72057594037927936 % 256 := by
  have h := headD_bufBE 7 u
  norm_num at h ⊢
  exact h

theorem bytesLt_bufBE (w a b : Nat) (ha : a < 2 ^ (8 * w)) (hb : b < 2 ^ (8 * w)) :
    bytesLt (bufBE w a) (bufBE w b) = decide (a < b) := by
  rw [bytesLt_eq _ _ (by rw [length_bufBE, length_bufBE])
      (isBytes_bufBE _ _) (isBytes_bufBE _ _),
    beNumA_bufBE, beNumA_bufBE, Nat.mod_eq_of_lt ha, Nat.mod_eq_of_lt hb]

/-! ## Evaluated forms of the float codecs -/

theorem from_float32_eval (e p : Nat) :
    from_float32 e p = if f32GeZero p then .ok (setMsb (bufBE 4 p))
      else .ok ((bufBE 4 p).map bnot) := by
  unfold from_float32
  by_cases he : e = 0 <;>
    simp only [he, ite_true, ite_false, reduceIte, ← bufBE_eq_reverse]

theorem from_float64_eval (e p : Nat) :
    from_float64 e p = if f64GeZero p then .ok (setMsb (bufBE 8 p))
      else .ok ((bufBE 8 p).map bnot) := by
  unfold from_float64
  by_cases he : e = 0 <;>
    simp only [he, ite_true, ite_false, reduceIte, ← bufBE_eq_reverse]

theorem to_float32_eval (e : Nat) (bs : List Nat) (hlen : bs.length = 4) :
    to_float32 e bs = .ok (if bs.headD 0 &&& 128 ≠ 0 then beNum (flipMsb bs)
      else beNum (bs.map bnot)) := by
  unfold to_float32
  rw [if_neg (by omega)]
  by_cases he : e = 0 <;>
    simp only [he, ite_true, ite_false, reduceIte, beNum] <;> split <;> rfl

theorem to_float64_eval (e : Nat) (bs : List Nat) (hlen : bs.length = 8) :
    to_float64 e bs = .ok (if bs.headD 0 &&& 128 ≠ 0 then beNum (flipMsb bs)
      else beNum (bs.map bnot)) := by
  unfold to_float64
  rw [if_neg (by omega)]
  by_cases he : e = 0 <;>
    simp only [he, ite_true, ite_false, reduceIte, beNum] <;> split <;> rfl

/-! ## List-level effect of the float bit transforms -/

theorem setMsb_bufBE4 (p : Nat) (hp : p < 4294967296) :
    setMsb (bufBE 4 p) = bufBE 4 (if p < 2147483648 then p + 2147483648 else p) := by
  apply eq_of_beNumA _ _ (isBytes_setMsb (isBytes_bufBE _ _)) (isBytes_bufBE _ _)
  · rw [length_setMsb, length_bufBE, length_bufBE]
  · have h := beNumA_setMsb_bufBE 3 p
    norm_num at h
    rw [h, or128 _ (Nat.mod_lt _ (by norm_num)), beNumA_bufBE]
    norm_num
    split_ifs <;> omega

theorem setMsb_bufBE8 (p : Nat) (hp : p < 18446744073709551616) :
    setMsb (bufBE 8 p) =
      bufBE 8 (if p < 9223372036854775808 then p + 9223372036854775808 else p) := by
  apply eq_of_beNumA _ _ (isBytes_setMsb (isBytes_bufBE _ _)) (isBytes_bufBE _ _)
  · rw [length_setMsb, length_bufBE, length_bufBE]
  · have h := beNumA_setMsb_bufBE 7 p
    norm_num at h
    rw [h, or128 _ (Nat.mod_lt _ (by norm_num)), beNumA_bufBE]
    norm_num
    split_ifs <;> omega

theorem map_bnot_bufBE4 (p : Nat) (hp : p < 4294967296) :
    (bufBE 4 p).map bnot = bufBE 4 (4294967295 - p) := by
  apply eq_of_beNumA _ _ (isBytes_map_bnot _) (isBytes_bufBE _ _)
  · rw [List.length_map, length_bufBE, length_bufBE]
  · have h := beNumA_map_bnot_bufBE 4 p
    norm_num at h
    rw [h, beNumA_bufBE]
    norm_num
    omega

theorem map_bnot_bufBE8 (p : Nat) (hp : p < 18446744073709551616) :
    (bufBE 8 p).map bnot = bufBE 8 (18446744073709551615 - p) := by
  apply eq_of_beNumA _ _ (isBytes_map_bnot _) (isBytes_bufBE _ _)
  · rw [List.length_map, length_bufBE, length_bufBE]
  · have h := beNumA_map_bnot_bufBE 8 p
    norm_num at h
    rw [h, beNumA_bufBE]
    norm_num
    omega

/-! ## Claims -/

/-- C6: for every domain of declared width `w`, the encoder only ever
returns byte strings of exactly `w` bytes, and each decoder rejects, with
the length `ValueError` (the spec's LengthError) raised before any byte is
interpreted, every input whose length is not exactly `w`. -/
theorem C6_fixed_width :
    (∀ x bs, from_int8 x = .ok bs → bs.length = 1) ∧
    (∀ x bs, from_uint8 x = .ok bs → bs.length = 1) ∧
    (∀ e x bs, from_int16 e x = .ok bs → bs.length = 2) ∧
    (∀ e x bs, from_uint16 e x = .ok bs → bs.length = 2) ∧
    (∀ e x bs, from_int32 e x = .ok bs → bs.length = 4) ∧
    (∀ e x bs, from_uint32 e x = .ok bs → bs.length = 4) ∧
    (∀ e x bs, from_int64 e x = .ok bs → bs.length = 8) ∧
    (∀ e x bs, from_uint64 e x = .ok bs → bs.length = 8) ∧
    (∀ e p bs, from_float32 e p = .ok bs → bs.length = 4) ∧
    (∀ e p bs, from_float64 e p = .ok bs → bs.length = 8) ∧
    (∀ bs, bs.length ≠ 1 → to_int8 bs = .error .valueError) ∧
    (∀ bs, bs.length ≠ 1 → to_uint8 bs = .error .valueError) ∧
    (∀ e bs, bs.length ≠ 2 → to_int16 e bs = .error .valueError) ∧
    (∀ e bs, bs.length ≠ 2 → to_uint16 e bs = .error .valueError) ∧
    (∀ e bs, bs.length ≠ 4 → to_int32 e bs = .error .valueError) ∧
    (∀ e bs, bs.length ≠ 4 → to_uint32 e bs = .error .valueError) ∧
    (∀ e bs, bs.length ≠ 8 → to_int64 e bs = .error .valueError) ∧
    (∀ e bs, bs.length ≠ 8 → to_uint64 e bs = .error .valueError) ∧
    (∀ e bs, bs.length ≠ 4 → to_float32 e bs = .error .valueError) ∧
    (∀ e bs, bs.length ≠ 8 → to_float64 e bs = .error .valueError) := by
  refine ⟨?_, ?_, ?_, ?_, ?_, ?_, ?_, ?_, ?_, ?_, ?_, ?_, ?_, ?_, ?_, ?_, ?_,
    ?_, ?_, ?_⟩
  · intro x bs h
    unfold from_int8 at h
    split_ifs at h <;> simp only [Except.ok.injEq] at h
    rw [← h, length_flipMsb]
    rfl
  · intro x bs h
    unfold from_uint8 at h
    split_ifs at h <;> simp only [Except.ok.injEq] at h
    rw [← h]
    rfl
  · intro e x bs h
    unfold from_int16 at h
    split_ifs at h <;> simp only [Except.ok.injEq] at h
    rw [← h, length_flipMsb, length_encBytes]
  · intro e x bs h
    unfold from_uint16 at h
    split_ifs at h <;> simp only [Except.ok.injEq] at h
    rw [← h, length_encBytes]
  · intro e x bs h
    unfold from_int32 at h
    split_ifs at h <;> simp only [Except.ok.injEq] at h
    rw [← h, length_flipMsb, length_encBytes]
  · intro e x bs h
    unfold from_uint32 at h
    split_ifs at h <;> simp only [Except.ok.injEq] at h
    rw [← h, length_encBytes]
  · intro e x bs h
    unfold from_int64 at h
    split_ifs at h <;> simp only [Except.ok.injEq] at h
    rw [← h, length_flipMsb, length_encBytes]
  · intro e x bs h
    unfold from_uint64 at h
    split_ifs at h <;> simp only [Except.ok.injEq] at h
    rw [← h, length_encBytes]
  · intro e p bs h
    rw [from_float32_eval] at h
    split_ifs at h <;> simp only [Except.ok.injEq] at h <;> rw [← h]
    · rw [length_setMsb, length_bufBE]
    · rw [List.length_map, length_bufBE]
  · intro e p bs h
    rw [from_float64_eval] at h
    split_ifs at h <;> simp only [Except.ok.injEq] at h <;> rw [← h]
    · rw [length_setMsb, length_bufBE]
    · rw [List.length_map, length_bufBE]
  · intro bs h
    unfold to_int8
    rw [if_pos h]
  · intro bs h
    unfold to_uint8
    rw [if_pos h]
  · intro e bs h
    unfold to_int16
    rw [if_pos h]
  · intro e bs h
    unfold to_uint16
    rw [if_pos h]
  · intro e bs h
    unfold to_int32
    rw [if_pos h]
  · intro e bs h
    unfold to_uint32
    rw [if_pos h]
  · intro e bs h
    unfold to_int64
    rw [if_pos h]
  · intro e bs h
    unfold to_uint64
    rw [if_pos h]
  · intro e bs h
    unfold to_float32
    rw [if_pos h]
  · intro e bs h
    unfold to_float64
    rw [if_pos h]

/-- Witness for C6: `decode_int32` on a 3-byte input fails with the length
`ValueError`, and `encode_int32` output has length 4. -/
theorem C6_fixed_width_witness :
    to_int32 1 [0, 0, 0] = .error .valueError ∧
    (from_int32 1 5 = .ok [128, 0, 0, 5] → ([128, 0, 0, 5] : List Nat).length = 4) := by
  constructor
  · exact C6_fixed_width.2.2.2.2.2.2.2.2.2.2.2.2.2.2.1 1 [0, 0, 0] (by decide)
  · exact C6_fixed_width.2.2.2.2.1 1 5 [128, 0, 0, 5]

/-- C9 (implicit): every decoder is total on well-formed byte strings of
exactly the domain's width — it succeeds and returns a value of the domain;
no such byte pattern is ever rejected. -/
theorem C9_decoder_total :
    (∀ bs, bs.length = 1 → isBytes bs →
      ∃ v, to_int8 bs = .ok v ∧ -128 ≤ v ∧ v ≤ 127) ∧
    (∀ bs, bs.length = 1 → isBytes bs → ∃ v, to_uint8 bs = .ok v ∧ v < 256) ∧
    (∀ e bs, bs.length = 2 → isBytes bs →
      ∃ v, to_int16 e bs = .ok v ∧ -32768 ≤ v ∧ v ≤ 32767) ∧
    (∀ e bs, bs.length = 2 → isBytes bs →
      ∃ v, to_uint16 e bs = .ok v ∧ v < 65536) ∧
    (∀ e bs, bs.length = 4 → isBytes bs →
      ∃ v, to_int32 e bs = .ok v ∧ -2147483648 ≤ v ∧ v ≤ 2147483647) ∧
    (∀ e bs, bs.length = 4 → isBytes bs →
      ∃ v, to_uint32 e bs = .ok v ∧ v < 4294967296) ∧
    (∀ e bs, bs.length = 8 → isBytes bs →
      ∃ v, to_int64 e bs = .ok v ∧
        -9223372036854775808 ≤ v ∧ v ≤ 9223372036854775807) ∧
    (∀ e bs, bs.length = 8 → isBytes bs →
      ∃ v, to_uint64 e bs = .ok v ∧ v < 18446744073709551616) ∧
    (∀ e bs, bs.length = 4 → isBytes bs →
      ∃ v, to_float32 e bs = .ok v ∧ v < 4294967296) ∧
    (∀ e bs, bs.length = 8 → isBytes bs →
      ∃ v, to_float64 e bs = .ok v ∧ v < 18446744073709551616) := by
  refine ⟨?_, ?_, ?_, ?_, ?_, ?_, ?_, ?_, ?_, ?_⟩
  · intro bs hlen hb
    refine ⟨_, by unfold to_int8; rw [if_neg (by omega)], ?_⟩
    rw [toSigned8_eq]
    have := Nat.mod_lt (bs.headD 0 ^^^ 128) (show 0 < 256 by norm_num)
    split_ifs <;> omega
  · intro bs hlen hb
    refine ⟨_, by unfold to_uint8; rw [if_neg (by omega)], ?_⟩
    cases bs with
    | nil => simp at hlen
    | cons b rest => exact isBytes_head hb
  · intro e bs hlen hb
    refine ⟨_, by unfold to_int16; rw [if_neg (by omega)], ?_⟩
    rw [toSigned16_eq]
    have := Nat.mod_lt (decNum e (flipMsb bs)) (show 0 < 65536 by norm_num)
    split_ifs <;> omega
  · intro e bs hlen hb
    refine ⟨_, by unfold to_uint16; rw [if_neg (by omega)], ?_⟩
    have := decNum_lt e bs hb
    rw [hlen] at this
    norm_num at this
    exact this
  · intro e bs hlen hb
    refine ⟨_, by unfold to_int32; rw [if_neg (by omega)], ?_⟩
    rw [toSigned32_eq]
    have := Nat.mod_lt (decNum e (flipMsb bs)) (show 0 < 4294967296 by norm_num)
    split_ifs <;> omega
  · intro e bs hlen hb
    refine ⟨_, by unfold to_uint32; rw [if_neg (by omega)], ?_⟩
    have := decNum_lt e bs hb
    rw [hlen] at this
    norm_num at this
    exact this
  · intro e bs hlen hb
    refine ⟨_, by unfold to_int64; rw [if_neg (by omega)], ?_⟩
    rw [toSigned64_eq]
    have := Nat.mod_lt (decNum e (flipMsb bs))
      (show 0 < 18446744073709551616 by norm_num)
    split_ifs <;> omega
  · intro e bs hlen hb
    refine ⟨_, by unfold to_uint64; rw [if_neg (by omega)], ?_⟩
    have := decNum_lt e bs hb
    rw [hlen] at this
    norm_num at this
    exact this
  · intro e bs hlen hb
    refine ⟨_, to_float32_eval e bs hlen, ?_⟩
    split
    · rw [beNum_eq_A _ (isBytes_flipMsb hb)]
      have := beNumA_lt _ (isBytes_flipMsb hb)
      rw [length_flipMsb, hlen] at this
      norm_num at this
      exact this
    · rw [beNum_eq_A _ (isBytes_map_bnot bs)]
      have := beNumA_lt _ (isBytes_map_bnot bs)
      rw [List.length_map, hlen] at this
      norm_num at this
      exact this
  · intro e bs hlen hb
    refine ⟨_, to_float64_eval e bs hlen, ?_⟩
    split
    · rw [beNum_eq_A _ (isBytes_flipMsb hb)]
      have := beNumA_lt _ (isBytes_flipMsb hb)
      rw [length_flipMsb, hlen] at this
      norm_num at this
      exact this
    · rw [beNum_eq_A _ (isBytes_map_bnot bs)]
      have := beNumA_lt _ (isBytes_map_bnot bs)
      rw [List.length_map, hlen] at this
      norm_num at this
      exact this

/-- Witness for C9: the all-ones 4-byte string decodes under `to_float32`. -/
theorem C9_decoder_total_witness :
    ∃ v, to_float32 1 [255, 255, 255, 255] = .ok v ∧ v < 4294967296 :=
  C9_decoder_total.2.2.2.2.2.2.2.2.1 1 [255, 255, 255, 255] (by decide)
    (by intro b hb; fin_cases hb <;> norm_num)

theorem xor128_lt (b : Nat) (hb : b < 256) : b ^^^ 128 < 256 := by
  have : b ^^^ 128 < 2 ^ 8 :=
    Nat.xor_lt_two_pow (by simpa using hb) (by norm_num)
  simpa using this

theorem xor128_xor128 (b : Nat) : b ^^^ 128 ^^^ 128 = b := by
  rw [Nat.xor_assoc, Nat.xor_self, Nat.xor_zero]

/-- C10 (implicit): on every integer domain the codec pair is a bijection
between the domain and the full set of `w`-byte strings — decoding any
`w`-byte string and re-encoding the result reproduces the input exactly. -/
theorem C10_decode_encode :
    (∀ bs, bs.length = 1 → isBytes bs →
      ∃ v, to_int8 bs = .ok v ∧ from_int8 v = .ok bs) ∧
    (∀ bs, bs.length = 1 → isBytes bs →
      ∃ v, to_uint8 bs = .ok v ∧ from_uint8 (v : Int) = .ok bs) ∧
    (∀ e bs, bs.length = 2 → isBytes bs →
      ∃ v, to_int16 e bs = .ok v ∧ from_int16 e v = .ok bs) ∧
    (∀ e bs, bs.length = 2 → isBytes bs →
      ∃ v, to_uint16 e bs = .ok v ∧ from_uint16 e (v : Int) = .ok bs) ∧
    (∀ e bs, bs.length = 4 → isBytes bs →
      ∃ v, to_int32 e bs = .ok v ∧ from_int32 e v = .ok bs) ∧
    (∀ e bs, bs.length = 4 → isBytes bs →
      ∃ v, to_uint32 e bs = .ok v ∧ from_uint32 e (v : Int) = .ok bs) ∧
    (∀ e bs, bs.length = 8 → isBytes bs →
      ∃ v, to_int64 e bs = .ok v ∧ from_int64 e v = .ok bs) ∧
    (∀ e bs, bs.length = 8 → isBytes bs →
      ∃ v, to_uint64 e bs = .ok v ∧ from_uint64 e (v : Int) = .ok bs) := by
  refine ⟨?_, ?_, ?_, ?_, ?_, ?_, ?_, ?_⟩
  · intro bs hlen hb
    rcases bs with _ | ⟨b, rest⟩
    · simp at hlen
    rcases rest with _ | ⟨c, rest⟩
    · clear hlen
      have hby := isBytes_head hb
      have hy : b ^^^ 128 < 256 := xor128_lt b hby
      refine ⟨toSigned 8 (b ^^^ 128), by unfold to_int8; rw [if_neg (by norm_num)]; rfl, ?_⟩
      have hrep : toSigned 8 (b ^^^ 128) =
          if b ^^^ 128 < 128 then ((b ^^^ 128 : Nat) : Int)
          else ((b ^^^ 128 : Nat) : Int) - 256 := by
        rw [toSigned8_eq, Nat.mod_eq_of_lt hy]
      unfold from_int8
      rw [if_neg (by split_ifs at hrep <;> omega), if_neg (by split_ifs at hrep <;> omega)]
      have hmod : (toSigned 8 (b ^^^ 128) % 256).toNat = b ^^^ 128 := by
        split_ifs at hrep <;> omega
      rw [hmod, flipMsb, xor128_xor128]
    · simp at hlen
  · intro bs hlen hb
    rcases bs with _ | ⟨b, rest⟩
    · simp at hlen
    rcases rest with _ | ⟨c, rest⟩
    · have hby := isBytes_head hb
      refine ⟨b, by unfold to_uint8; rw [if_neg (by norm_num)]; rfl, ?_⟩
      unfold from_uint8
      rw [if_neg (by omega), if_neg (by omega)]
      simp
    · simp at hlen
  · intro e bs hlen hb
    have hn : decNum e (flipMsb bs) < 65536 := by
      have := decNum_lt e (flipMsb bs) (isBytes_flipMsb hb)
      rw [length_flipMsb, hlen] at this
      norm_num at this
      exact this
    refine ⟨_, by unfold to_int16; rw [if_neg (by omega)], ?_⟩
    have hrep := toSigned16_eq (decNum e (flipMsb bs))
    rw [Nat.mod_eq_of_lt hn] at hrep
    unfold from_int16
    rw [if_neg (by split_ifs at hrep <;> omega)]
    have hmod : (toSigned 16 (decNum e (flipMsb bs)) % 65536).toNat
        = decNum e (flipMsb bs) := by
      split_ifs at hrep <;> omega
    rw [hmod]
    have henc := encBytes_decNum e (flipMsb bs) (isBytes_flipMsb hb)
    rw [length_flipMsb, hlen] at henc
    rw [henc, flipMsb_flipMsb]
  · intro e bs hlen hb
    have hn : decNum e bs < 65536 := by
      have := decNum_lt e bs hb
      rw [hlen] at this
      norm_num at this
      exact this
    refine ⟨_, by unfold to_uint16; rw [if_neg (by omega)], ?_⟩
    unfold from_uint16
    rw [if_neg (by omega), if_neg (by omega)]
    have henc := encBytes_decNum e bs hb
    rw [hlen] at henc
    simp only [Int.toNat_natCast]
    rw [henc]
  · intro e bs hlen hb
    have hn : decNum e (flipMsb bs) < 4294967296 := by
      have := decNum_lt e (flipMsb bs) (isBytes_flipMsb hb)
      rw [length_flipMsb, hlen] at this
      norm_num at this
      exact this
    refine ⟨_, by unfold to_int32; rw [if_neg (by omega)], ?_⟩
    have hrep := toSigned32_eq (decNum e (flipMsb bs))
    rw [Nat.mod_eq_of_lt hn] at hrep
    unfold from_int32
    rw [if_neg (by split_ifs at hrep <;> omega)]
    have hmod : (toSigned 32 (decNum e (flipMsb bs)) % 4294967296).toNat
        = decNum e (flipMsb bs) := by
      split_ifs at hrep <;> omega
    rw [hmod]
    have henc := encBytes_decNum e (flipMsb bs) (isBytes_flipMsb hb)
    rw [length_flipMsb, hlen] at henc
    rw [henc, flipMsb_flipMsb]
  · intro e bs hlen hb
    have hn : decNum e bs < 4294967296 := by
      have := decNum_lt e bs hb
      rw [hlen] at this
      norm_num at this
      exact this
    refine ⟨_, by unfold to_uint32; rw [if_neg (by omega)], ?_⟩
    unfold from_uint32
    rw [if_neg (by omega), if_neg (by omega)]
    have henc := encBytes_decNum e bs hb
    rw [hlen] at henc
    simp only [Int.toNat_natCast]
    rw [henc]
  · intro e bs hlen hb
    have hn : decNum e (flipMsb bs) < 18446744073709551616 := by
      have := decNum_lt e (flipMsb bs) (isBytes_flipMsb hb)
      rw [length_flipMsb, hlen] at this
      norm_num at this
      exact this
    refine ⟨_, by unfold to_int64; rw [if_neg (by omega)], ?_⟩
    have hrep := toSigned64_eq (decNum e (flipMsb bs))
    rw [Nat.mod_eq_of_lt hn] at hrep
    unfold from_int64
    rw [if_neg (by split_ifs at hrep <;> omega)]
    have hmod : (toSigned 64 (decNum e (flipMsb bs)) % 18446744073709551616).toNat
        = decNum e (flipMsb bs) := by
      split_ifs at hrep <;> omega
    rw [hmod]
    have henc := encBytes_decNum e (flipMsb bs) (isBytes_flipMsb hb)
    rw [length_flipMsb, hlen] at henc
    rw [henc, flipMsb_flipMsb]
  · intro e bs hlen hb
    have hn : decNum e bs < 18446744073709551616 := by
      have := decNum_lt e bs hb
      rw [hlen] at this
      norm_num at this
      exact this
    refine ⟨_, by unfold to_uint64; rw [if_neg (by omega)], ?_⟩
    unfold from_uint64
    rw [if_neg (by omega)]
    have henc := encBytes_decNum e bs hb
    rw [hlen] at henc
    simp only [Int.toNat_natCast]
    rw [henc]

/-- Witness for C10: decoding then re-encoding the 2-byte string
`[1, 2]` under the int16 codec reproduces it. -/
theorem C10_decode_encode_witness :
    ∃ v, to_int16 1 [1, 2] = .ok v ∧ from_int16 1 v = .ok [1, 2] :=
  C10_decode_encode.2.2.1 1 [1, 2] (by decide)
    (by intro b hb; fin_cases hb <;> norm_num)

/-- Round trip of a non-NaN float32 pattern, on either host byte order. -/
theorem float32_roundtrip (e p : Nat) (hp : p < 4294967296)
    (hnan : ¬f32IsNan p) :
    ∃ bs q, from_float32 e p = .ok bs ∧ to_float32 e bs = .ok q ∧ f32Eq q p := by
  by_cases hgz : f32GeZero p
  · have hple : p ≤ 2147483648 := by
      rcases hgz.2 with h | h
      · have : p < 2147483648 := by omega
        omega
      · omega
    have hv := setMsb_bufBE4 p hp
    set v : Nat := if p < 2147483648 then p + 2147483648 else p with hvdef
    have hv31 : 2147483648 ≤ v ∧ v < 4294967296 := by
      rw [hvdef]
      split_ifs <;> omega
    have hdec : to_float32 e (bufBE 4 v) = .ok (if p < 2147483648 then p else 0) := by
      rw [to_float32_eval e _ (length_bufBE 4 v)]
      rw [headD_bufBE4, and128 _ (Nat.mod_lt _ (by norm_num)),
        if_pos (show (if v / 16777216 % 256 < 128 then 0 else 128) ≠ 0 by
          split_ifs <;> omega)]
      rw [beNum_eq_A _ (isBytes_flipMsb (isBytes_bufBE _ _))]
      have hf := beNumA_flipMsb_bufBE 3 v
      norm_num at hf
      rw [hf, xor128 _ (Nat.mod_lt _ (by norm_num))]
      simp only [Except.ok.injEq]
      rw [hvdef]
      split_ifs <;> omega
    refine ⟨bufBE 4 v, if p < 2147483648 then p else 0,
      by rw [from_float32_eval, if_pos hgz, hv], hdec, ?_⟩
    split_ifs with hcase
    · exact ⟨hnan, hnan, Or.inl rfl⟩
    · have hp31 : p = 2147483648 := by omega
      exact ⟨by norm_num [f32IsNan], hnan,
        Or.inr ⟨Or.inl rfl, Or.inr (by rw [hp31]; norm_num)⟩⟩
  · have hneg : 2147483648 < p := by
      simp only [f32GeZero, not_and, not_or] at hgz
      have := hgz hnan
      omega
    have hv := map_bnot_bufBE4 p hp
    have hdec : to_float32 e (bufBE 4 (4294967295 - p)) = .ok p := by
      rw [to_float32_eval e _ (length_bufBE 4 _)]
      rw [headD_bufBE4, and128 _ (Nat.mod_lt _ (by norm_num)),
        if_neg (show ¬((if (4294967295 - p) / 16777216 % 256 < 128 then 0
          else 128) ≠ 0) by split_ifs <;> omega)]
      rw [beNum_eq_A _ (isBytes_map_bnot _)]
      have hf := beNumA_map_bnot_bufBE 4 (4294967295 - p)
      norm_num at hf
      rw [hf]
      simp only [Except.ok.injEq]
      omega
    exact ⟨_, p, by rw [from_float32_eval, if_neg hgz, hv], hdec,
      hnan, hnan, Or.inl rfl⟩

/-- Round trip of a non-NaN float64 pattern, on either host byte order. -/
theorem float64_roundtrip (e p : Nat) (hp : p < 18446744073709551616)
    (hnan : ¬f64IsNan p) :
    ∃ bs q, from_float64 e p = .ok bs ∧ to_float64 e bs = .ok q ∧ f64Eq q p := by
  by_cases hgz : f64GeZero p
  · have hple : p ≤ 9223372036854775808 := by
      rcases hgz.2 with h | h
      · have : p < 9223372036854775808 := by omega
        omega
      · omega
    have hv := setMsb_bufBE8 p hp
    set v : Nat := if p < 9223372036854775808 then p + 9223372036854775808 else p
      with hvdef
    have hv63 : 9223372036854775808 ≤ v ∧ v < 18446744073709551616 := by
      rw [hvdef]
      split_ifs <;> omega
    have hdec : to_float64 e (bufBE 8 v)
        = .ok (if p < 9223372036854775808 then p else 0) := by
      rw [to_float64_eval e _ (length_bufBE 8 v)]
      rw [headD_bufBE8, and128 _ (Nat.mod_lt _ (by norm_num)),
        if_pos (show (if v / 72057594037927936 % 256 < 128 then 0 else 128) ≠ 0 by
          split_ifs <;> omega)]
      rw [beNum_eq_A _ (isBytes_flipMsb (isBytes_bufBE _ _))]
      have hf := beNumA_flipMsb_bufBE 7 v
      norm_num at hf
      rw [hf, xor128 _ (Nat.mod_lt _ (by norm_num))]
      simp only [Except.ok.injEq]
      rw [hvdef]
      split_ifs <;> omega
    refine ⟨bufBE 8 v, if p < 9223372036854775808 then p else 0,
      by rw [from_float64_eval, if_pos hgz, hv], hdec, ?_⟩
    split_ifs with hcase
    · exact ⟨hnan, hnan, Or.inl rfl⟩
    · have hp63 : p = 9223372036854775808 := by omega
      exact ⟨by norm_num [f64IsNan], hnan,
        Or.inr ⟨Or.inl rfl, Or.inr (by rw [hp63]; norm_num)⟩⟩
  · have hneg : 9223372036854775808 < p := by
      simp only [f64GeZero, not_and, not_or] at hgz
      have := hgz hnan
      omega
    have hv := map_bnot_bufBE8 p hp
    have hdec : to_float64 e (bufBE 8 (18446744073709551615 - p)) = .ok p := by
      rw [to_float64_eval e _ (length_bufBE 8 _)]
      rw [headD_bufBE8, and128 _ (Nat.mod_lt _ (by norm_num)),
        if_neg (show ¬((if (18446744073709551615 - p) / 72057594037927936 % 256
          < 128 then 0 else 128) ≠ 0) by split_ifs <;> omega)]
      rw [beNum_eq_A _ (isBytes_map_bnot _)]
      have hf := beNumA_map_bnot_bufBE 8 (18446744073709551615 - p)
      norm_num at hf
      rw [hf]
      simp only [Except.ok.injEq]
      omega
    exact ⟨_, p, by rw [from_float64_eval, if_neg hgz, hv], hdec,
      hnan, hnan, Or.inl rfl⟩

/-- C2 (amended: float NaN patterns excluded): decoding the encoding of any
representable non-NaN value returns the value again, on either host byte
order; for the float domains equality is the domain's IEEE equality, which
identifies `+0.0` and `-0.0`. -/
theorem C2_roundtrip :
    (∀ x : Int, -128 ≤ x → x ≤ 127 →
      ∃ bs, from_int8 x = .ok bs ∧ to_int8 bs = .ok x) ∧
    (∀ x : Int, 0 ≤ x → x ≤ 255 →
      ∃ bs, from_uint8 x = .ok bs ∧ to_uint8 bs = .ok x.toNat) ∧
    (∀ e (x : Int), -32768 ≤ x → x ≤ 32767 →
      ∃ bs, from_int16 e x = .ok bs ∧ to_int16 e bs = .ok x) ∧
    (∀ e (x : Int), 0 ≤ x → x ≤ 65535 →
      ∃ bs, from_uint16 e x = .ok bs ∧ to_uint16 e bs = .ok x.toNat) ∧
    (∀ e (x : Int), -2147483648 ≤ x → x ≤ 2147483647 →
      ∃ bs, from_int32 e x = .ok bs ∧ to_int32 e bs = .ok x) ∧
    (∀ e (x : Int), 0 ≤ x → x ≤ 4294967295 →
      ∃ bs, from_uint32 e x = .ok bs ∧ to_uint32 e bs = .ok x.toNat) ∧
    (∀ e (x : Int), -9223372036854775808 ≤ x → x ≤ 9223372036854775807 →
      ∃ bs, from_int64 e x = .ok bs ∧ to_int64 e bs = .ok x) ∧
    (∀ e (x : Int), 0 ≤ x → x ≤ 18446744073709551615 →
      ∃ bs, from_uint64 e x = .ok bs ∧ to_uint64 e bs = .ok x.toNat) ∧
    (∀ e p, p < 4294967296 → ¬f32IsNan p →
      ∃ bs q, from_float32 e p = .ok bs ∧ to_float32 e bs = .ok q ∧ f32Eq q p) ∧
    (∀ e p, p < 18446744073709551616 → ¬f64IsNan p →
      ∃ bs q, from_float64 e p = .ok bs ∧ to_float64 e bs = .ok q ∧ f64Eq q p) := by
  refine ⟨?_, ?_, ?_, ?_, ?_, ?_, ?_, ?_, float32_roundtrip, float64_roundtrip⟩
  · intro x h1 h2
    refine ⟨_, by unfold from_int8; rw [if_neg (by omega), if_neg (by omega)], ?_⟩
    unfold to_int8
    rw [if_neg (by rw [length_flipMsb]; norm_num)]
    simp only [flipMsb, List.headD_cons, xor128_xor128, Except.ok.injEq]
    rw [toSigned8_eq]
    split_ifs <;> omega
  · intro x h1 h2
    refine ⟨_, by unfold from_uint8; rw [if_neg (by omega), if_neg (by omega)], ?_⟩
    unfold to_uint8
    rw [if_neg (by norm_num)]
    simp
  · intro e x h1 h2
    refine ⟨_, by unfold from_int16; rw [if_neg (by omega)], ?_⟩
    unfold to_int16
    rw [if_neg (by rw [length_flipMsb, length_encBytes]; omega)]
    rw [flipMsb_flipMsb, decNum_encBytes]
    simp only [Except.ok.injEq]
    rw [toSigned16_eq]
    norm_num
    split_ifs <;> omega
  · intro e x h1 h2
    refine ⟨_, by unfold from_uint16; rw [if_neg (by omega), if_neg (by omega)], ?_⟩
    unfold to_uint16
    rw [if_neg (by rw [length_encBytes]; omega)]
    rw [decNum_encBytes]
    simp only [Except.ok.injEq]
    norm_num
    omega
  · intro e x h1 h2
    refine ⟨_, by unfold from_int32; rw [if_neg (by omega)], ?_⟩
    unfold to_int32
    rw [if_neg (by rw [length_flipMsb, length_encBytes]; omega)]
    rw [flipMsb_flipMsb, decNum_encBytes]
    simp only [Except.ok.injEq]
    rw [toSigned32_eq]
    norm_num
    split_ifs <;> omega
  · intro e x h1 h2
    refine ⟨_, by unfold from_uint32; rw [if_neg (by omega), if_neg (by omega)], ?_⟩
    unfold to_uint32
    rw [if_neg (by rw [length_encBytes]; omega)]
    rw [decNum_encBytes]
    simp only [Except.ok.injEq]
    norm_num
    omega
  · intro e x h1 h2
    refine ⟨_, by unfold from_int64; rw [if_neg (by omega)], ?_⟩
    unfold to_int64
    rw [if_neg (by rw [length_flipMsb, length_encBytes]; omega)]
    rw [flipMsb_flipMsb, decNum_encBytes]
    simp only [Except.ok.injEq]
    rw [toSigned64_eq]
    norm_num
    split_ifs <;> omega
  · intro e x h1 h2
    refine ⟨_, by unfold from_uint64; rw [if_neg (by omega)], ?_⟩
    unfold to_uint64
    rw [if_neg (by rw [length_encBytes]; omega)]
    rw [decNum_encBytes]
    simp only [Except.ok.injEq]
    norm_num
    omega

/-- Witness for C2: the int16 value -1 and the float32 pattern of 1.0
both round-trip on a little-endian host. -/
theorem C2_roundtrip_witness :
    (∃ bs, from_int16 1 (-1) = .ok bs ∧ to_int16 1 bs = .ok (-1)) ∧
    (∃ bs q, from_float32 1 1065353216 = .ok bs ∧ to_float32 1 bs = .ok q ∧
      f32Eq q 1065353216) :=
  ⟨C2_roundtrip.2.2.1 1 (-1) (by norm_num) (by norm_num),
    C2_roundtrip.2.2.2.2.2.2.2.2.1 1 1065353216 (by norm_num) (by decide)⟩

/-- Counterexample to C2 as frozen: the quiet-NaN float32 pattern
`0x7FC00000` does not round-trip.  The encoder sends it through the
negative branch (`input >= 0` is false for NaN) while the decoder routes
the resulting bytes through the positive branch, so the bytes come back as
the unrelated non-NaN pattern `0x003FFFFF`; moreover IEEE equality never
holds for a NaN.  The spec's round-trip sentence quantifies over every
representable value and excludes only the zero pair. -/
theorem C2_roundtrip_counterexample :
    f32IsNan 2143289344 ∧
    from_float32 1 2143289344 = .ok [128, 63, 255, 255] ∧
    to_float32 1 [128, 63, 255, 255] = .ok 4194303 ∧
    ¬f32Eq 4194303 2143289344 := by
  refine ⟨by decide, by decide, by decide, by decide⟩

/-- C3 (the code violates the claim on big-endian hosts): the integer
encoders extract bytes with value shifts, which are independent of the host
byte order, yet the `ENDIANNESS == 0` branch stores byte `i` of the value at
buffer position `i` — so a big-endian host emits the bytes least significant
first.  `from_uint16` applied to 1 yields `[0x01, 0x00]` on a big-endian
host and the spec's big-endian `[0x00, 0x01]` only on a little-endian host;
`from_int64` shows the same divergence.  The wire format therefore depends
on the host byte order, contradicting the claim (and making the output of a
big-endian host non-sortable, against the module's own documentation). -/
theorem C3_big_endian_layout :
    from_uint16 0 1 = .ok [1, 0] ∧
    from_uint16 1 1 = .ok [0, 1] ∧
    specUnsignedBE 2 1 = [0, 1] ∧
    from_int64 0 1 = .ok [129, 0, 0, 0, 0, 0, 0, 0] ∧
    from_int64 1 1 = .ok [128, 0, 0, 0, 0, 0, 0, 1] := by
  refine ⟨by decide, by decide, by decide, by decide, by decide⟩

/-- Counterexample to C5 as frozen: `from_uint64` applied to the
out-of-range value `2^64` fails with `TypeError` (the wrapper clears the
conversion error of `PyLong_AsUnsignedLongLong` and raises `TypeError`),
not with the range `ValueError`; the claim requires a RangeError for every
domain. -/
theorem C5_range_counterexample :
    from_uint64 1 18446744073709551616 = .error .typeError ∧
    PyErr.typeError ≠ PyErr.valueError := by
  refine ⟨by decide, by decide⟩

/-- C5 (amended): the encoders with an explicit range check (int8, uint8,
uint16, uint32) fail with `ValueError` (the spec's RangeError) on
out-of-range values accepted by the argument parser; the int16/int32/int64
encoders and the uint64 encoder instead reject out-of-range values in the
argument-parsing step with `TypeError`.  In every case no byte output is
produced, and in-range boundary values succeed. -/
theorem C5_range_rejection :
    (∀ x : Int, -2147483648 ≤ x → x ≤ 2147483647 → (x < -128 ∨ 127 < x) →
      from_int8 x = .error .valueError) ∧
    (∀ x : Int, -2147483648 ≤ x → x ≤ 2147483647 → (x < 0 ∨ 255 < x) →
      from_uint8 x = .error .valueError) ∧
    (∀ e (x : Int), -2147483648 ≤ x → x ≤ 2147483647 → (x < 0 ∨ 65535 < x) →
      from_uint16 e x = .error .valueError) ∧
    (∀ e (x : Int), -9223372036854775808 ≤ x → x ≤ 9223372036854775807 →
      (x < 0 ∨ 4294967295 < x) → from_uint32 e x = .error .valueError) ∧
    (∀ e (x : Int), (x < -32768 ∨ 32767 < x) →
      from_int16 e x = .error .typeError) ∧
    (∀ e (x : Int), (x < -2147483648 ∨ 2147483647 < x) →
      from_int32 e x = .error .typeError) ∧
    (∀ e (x : Int), (x < -9223372036854775808 ∨ 9223372036854775807 < x) →
      from_int64 e x = .error .typeError) ∧
    (∀ e (x : Int), (x < 0 ∨ 18446744073709551615 < x) →
      from_uint64 e x = .error .typeError) ∧
    (∀ e, from_uint32 e 4294967295 = .ok [255, 255, 255, 255]) ∧
    from_uint8 255 = .ok [255] ∧
    from_int8 (-128) = .ok [0] := by
  refine ⟨?_, ?_, ?_, ?_, ?_, ?_, ?_, ?_, ?_, by decide, by decide⟩
  · intro x h1 h2 h3
    unfold from_int8
    rw [if_neg (by omega), if_pos h3]
  · intro x h1 h2 h3
    unfold from_uint8
    rw [if_neg (by omega), if_pos h3]
  · intro e x h1 h2 h3
    unfold from_uint16
    rw [if_neg (by omega), if_pos h3]
  · intro e x h1 h2 h3
    unfold from_uint32
    rw [if_neg (by omega), if_pos h3]
  · intro e x h
    unfold from_int16
    rw [if_pos h]
  · intro e x h
    unfold from_int32
    rw [if_pos h]
  · intro e x h
    unfold from_int64
    rw [if_pos h]
  · intro e x h
    unfold from_uint64
    rw [if_pos h]
  · intro e
    unfold from_uint32
    rw [if_neg (by norm_num), if_neg (by norm_num)]
    by_cases he : e = 0 <;>
      simp only [encBytes, he, ite_true, ite_false, reduceIte] <;> decide

/-- Witness for C5: the spec's own scenarios — 300 for uint8, -129 for
int8 and 4294967296 for uint32 all fail with the range ValueError. -/
theorem C5_range_rejection_witness :
    from_uint8 300 = .error .valueError ∧
    from_int8 (-129) = .error .valueError ∧
    from_uint32 1 4294967296 = .error .valueError :=
  ⟨C5_range_rejection.2.1 300 (by norm_num) (by norm_num) (Or.inr (by norm_num)),
    C5_range_rejection.1 (-129) (by norm_num) (by norm_num) (Or.inl (by norm_num)),
    C5_range_rejection.2.2.2.1 1 4294967296 (by norm_num) (by norm_num)
      (Or.inr (by norm_num))⟩

theorem bufBE_eq_specTwos (w : Nat) (x : Int) :
    bufBE w ((x % (2 ^ (8 * w))).toNat) = specTwosBE w x := by
  unfold bufBE specTwosBE
  apply List.map_congr_left
  intro j _
  rw [Nat.shiftRight_eq_div_pow, and255]

theorem bufBE_eq_specU (w u : Nat) : bufBE w u = specUnsignedBE w u := by
  unfold bufBE specUnsignedBE
  apply List.map_congr_left
  intro j _
  rw [Nat.shiftRight_eq_div_pow, and255]

/-- Counterexample to C4 as frozen: on a big-endian host (probe result 0)
the signed encoders write the two's-complement bytes least significant
first, so `from_int16(1)` yields `[0x81, 0x00]` instead of the claimed
sign-bit-flipped big-endian `[0x80, 0x01]`. -/
theorem C4_signed_layout_counterexample :
    from_int16 0 1 = .ok [129, 0] ∧
    specSignedEncode 2 1 = [128, 1] ∧
    ¬(from_int16 0 1 = .ok (specSignedEncode 2 1)) := by
  refine ⟨by decide, by decide, by decide⟩

/-- C4 (amended: on a little-endian host, where the endianness probe yields
1): every signed encoder returns exactly the two's-complement big-endian
bytes of the value with the most significant bit of byte 0 flipped, and
every signed decoder undoes the flip on byte 0 of a `w`-byte input and
reinterprets the result as a big-endian two's-complement integer. -/
theorem C4_signed_layout :
    (∀ x : Int, -128 ≤ x → x ≤ 127 → from_int8 x = .ok (specSignedEncode 1 x)) ∧
    (∀ x : Int, -32768 ≤ x → x ≤ 32767 →
      from_int16 1 x = .ok (specSignedEncode 2 x)) ∧
    (∀ x : Int, -2147483648 ≤ x → x ≤ 2147483647 →
      from_int32 1 x = .ok (specSignedEncode 4 x)) ∧
    (∀ x : Int, -9223372036854775808 ≤ x → x ≤ 9223372036854775807 →
      from_int64 1 x = .ok (specSignedEncode 8 x)) ∧
    (∀ bs, bs.length = 1 → isBytes bs → to_int8 bs = .ok (specSignedDecode 1 bs)) ∧
    (∀ bs, bs.length = 2 → isBytes bs →
      to_int16 1 bs = .ok (specSignedDecode 2 bs)) ∧
    (∀ bs, bs.length = 4 → isBytes bs →
      to_int32 1 bs = .ok (specSignedDecode 4 bs)) ∧
    (∀ bs, bs.length = 8 → isBytes bs →
      to_int64 1 bs = .ok (specSignedDecode 8 bs)) := by
  refine ⟨?_, ?_, ?_, ?_, ?_, ?_, ?_, ?_⟩
  · intro x h1 h2
    unfold from_int8
    rw [if_neg (by omega), if_neg (by omega)]
    unfold specSignedEncode
    have hsp : specTwosBE 1 x = [(x % 256).toNat] := by
      unfold specTwosBE
      rw [show List.range 1 = [0] from rfl]
      simp only [List.map_cons, List.map_nil, List.cons.injEq, and_true]
      norm_num
      omega
    rw [hsp]
  · intro x h1 h2
    unfold from_int16
    rw [if_neg (by omega), encBytes_one]
    unfold specSignedEncode
    have h := bufBE_eq_specTwos 2 x
    norm_num at h
    rw [h]
  · intro x h1 h2
    unfold from_int32
    rw [if_neg (by omega), encBytes_one]
    unfold specSignedEncode
    have h := bufBE_eq_specTwos 4 x
    norm_num at h
    rw [h]
  · intro x h1 h2
    unfold from_int64
    rw [if_neg (by omega), encBytes_one]
    unfold specSignedEncode
    have h := bufBE_eq_specTwos 8 x
    norm_num at h
    rw [h]
  · intro bs hlen hb
    rcases bs with _ | ⟨b, rest⟩
    · simp at hlen
    rcases rest with _ | ⟨c, rest⟩
    · have hby := isBytes_head hb
      have hy := xor128_lt b hby
      unfold to_int8 specSignedDecode
      rw [if_neg (by norm_num)]
      simp only [List.headD_cons, flipMsb, beNumA_cons, beNumA, List.length_nil,
        pow_zero, Nat.mul_one, Nat.add_zero, Except.ok.injEq]
      rw [toSigned8_eq, Nat.mod_eq_of_lt hy]
      norm_num
    · simp at hlen
  · intro bs hlen hb
    have hn : beNumA (flipMsb bs) < 65536 := by
      have := beNumA_lt _ (isBytes_flipMsb hb)
      rw [length_flipMsb, hlen] at this
      norm_num at this
      exact this
    unfold to_int16 specSignedDecode
    rw [if_neg (by omega), decNum_eq_beNumA _ (isBytes_flipMsb hb)]
    simp only [Except.ok.injEq]
    rw [toSigned16_eq, Nat.mod_eq_of_lt hn]
    norm_num
  · intro bs hlen hb
    have hn : beNumA (flipMsb bs) < 4294967296 := by
      have := beNumA_lt _ (isBytes_flipMsb hb)
      rw [length_flipMsb, hlen] at this
      norm_num at this
      exact this
    unfold to_int32 specSignedDecode
    rw [if_neg (by omega), decNum_eq_beNumA _ (isBytes_flipMsb hb)]
    simp only [Except.ok.injEq]
    rw [toSigned32_eq, Nat.mod_eq_of_lt hn]
    norm_num
  · intro bs hlen hb
    have hn : beNumA (flipMsb bs) < 18446744073709551616 := by
      have := beNumA_lt _ (isBytes_flipMsb hb)
      rw [length_flipMsb, hlen] at this
      norm_num at this
      exact this
    unfold to_int64 specSignedDecode
    rw [if_neg (by omega), decNum_eq_beNumA _ (isBytes_flipMsb hb)]
    simp only [Except.ok.injEq]
    rw [toSigned64_eq, Nat.mod_eq_of_lt hn]
    norm_num

/-- Witness for C4: encoding -2 as int16 matches the spec's layout, and
decoding `[0x7F, 0xFE]` matches the spec's decode. -/
theorem C4_signed_layout_witness :
    from_int16 1 (-2) = .ok (specSignedEncode 2 (-2)) ∧
    to_int16 1 [127, 254] = .ok (specSignedDecode 2 [127, 254]) :=
  ⟨C4_signed_layout.2.1 (-2) (by norm_num) (by norm_num),
    C4_signed_layout.2.2.2.2.2.1 [127, 254] (by decide)
      (by intro b hb; fin_cases hb <;> norm_num)⟩

/-- C7: on either host byte order, float encode is exactly: take the
big-endian IEEE-754 bit pattern; if `value >= 0` (true for both zeros) set
the most significant bit of byte 0 (OR with 0x80) leaving all other bits
unchanged, and if `value < 0` complement every byte. -/
theorem C7_float_layout :
    (∀ e p, from_float32 e p = .ok (specFloatEnc32 p)) ∧
    (∀ e p, from_float64 e p = .ok (specFloatEnc64 p)) := by
  constructor
  · intro e p
    rw [from_float32_eval]
    unfold specFloatEnc32
    simp only [← bufBE_eq_specU]
    split <;> rfl
  · intro e p
    rw [from_float64_eval]
    unfold specFloatEnc64
    simp only [← bufBE_eq_specU]
    split <;> rfl

/-- Counterexample to C8 as frozen: the zero pair is not the only encoder
collision.  The sign-positive NaN pattern `0x7FFFFFFF` is routed through
the negative branch (`input >= 0` is false for NaN), whose bytewise
complement is `[0x80, 0, 0, 0]` — the same bytes as `+0.0`.  So the
distinct pair (`0x7FFFFFFF`, `0`) also collides, and it is not the
`+0.0`/`-0.0` pair. -/
theorem C8_collision_counterexample :
    from_float32 1 2147483647 = .ok [128, 0, 0, 0] ∧
    from_float32 1 0 = .ok [128, 0, 0, 0] ∧
    (2147483647 : Nat) ≠ 0 ∧ (2147483647 : Nat) ≠ 2147483648 ∧
    f32IsNan 2147483647 := by
  refine ⟨by decide, by decide, by decide, by decide, by decide⟩

/-- C8 (amended: restricted to non-NaN patterns): `+0.0` and `-0.0` encode
identically, and on non-NaN inputs this is the only collision — the float
encoders are injective on all other non-NaN pairs.  (Sign-positive NaN
patterns additionally collide with non-NaN encodings, see the
counterexample.) -/
theorem C8_zero_pair_injectivity :
    (∀ e, from_float32 e 2147483648 = from_float32 e 0) ∧
    (∀ e, from_float64 e 9223372036854775808 = from_float64 e 0) ∧
    (∀ e p q, p < 4294967296 → q < 4294967296 → ¬f32IsNan p → ¬f32IsNan q →
      from_float32 e p = from_float32 e q →
      p = q ∨ ((p = 0 ∨ p = 2147483648) ∧ (q = 0 ∨ q = 2147483648))) ∧
    (∀ e p q, p < 18446744073709551616 → q < 18446744073709551616 →
      ¬f64IsNan p → ¬f64IsNan q → from_float64 e p = from_float64 e q →
      p = q ∨ ((p = 0 ∨ p = 9223372036854775808) ∧
        (q = 0 ∨ q = 9223372036854775808))) := by
  refine ⟨?_, ?_, ?_, ?_⟩
  · intro e
    rw [from_float32_eval, from_float32_eval]
    decide
  · intro e
    rw [from_float64_eval, from_float64_eval]
    decide
  · intro e p q hp hq hnp hnq heq
    rw [from_float32_eval, from_float32_eval] at heq
    by_cases hgp : f32GeZero p <;> by_cases hgq : f32GeZero q
    · simp only [hgp, hgq, ite_true, reduceIte, Except.ok.injEq] at heq
      rw [setMsb_bufBE4 p hp, setMsb_bufBE4 q hq] at heq
      have hval := congrArg beNumA heq
      rw [beNumA_bufBE, beNumA_bufBE] at hval
      norm_num at hval
      rcases hgp.2 with h | h <;> rcases hgq.2 with h2 | h2 <;>
        split_ifs at hval <;> omega
    · have hq31 : 2147483648 < q := by
        simp only [f32GeZero, not_and, not_or] at hgq
        have := hgq hnq
        omega
      simp only [hgp, hgq, ite_true, ite_false, reduceIte, Except.ok.injEq] at heq
      rw [setMsb_bufBE4 p hp, map_bnot_bufBE4 q hq] at heq
      have hval := congrArg beNumA heq
      rw [beNumA_bufBE, beNumA_bufBE] at hval
      norm_num at hval
      rcases hgp.2 with h | h <;> split_ifs at hval <;> omega
    · have hp31 : 2147483648 < p := by
        simp only [f32GeZero, not_and, not_or] at hgp
        have := hgp hnp
        omega
      simp only [hgp, hgq, ite_true, ite_false, reduceIte, Except.ok.injEq] at heq
      rw [map_bnot_bufBE4 p hp, setMsb_bufBE4 q hq] at heq
      have hval := congrArg beNumA heq
      rw [beNumA_bufBE, beNumA_bufBE] at hval
      norm_num at hval
      rcases hgq.2 with h | h <;> split_ifs at hval <;> omega
    · have hp31 : 2147483648 < p := by
        simp only [f32GeZero, not_and, not_or] at hgp
        have := hgp hnp
        omega
      have hq31 : 2147483648 < q := by
        simp only [f32GeZero, not_and, not_or] at hgq
        have := hgq hnq
        omega
      simp only [hgp, hgq, ite_false, reduceIte, Except.ok.injEq] at heq
      rw [map_bnot_bufBE4 p hp, map_bnot_bufBE4 q hq] at heq
      have hval := congrArg beNumA heq
      rw [beNumA_bufBE, beNumA_bufBE] at hval
      norm_num at hval
      omega
  · intro e p q hp hq hnp hnq heq
    rw [from_float64_eval, from_float64_eval] at heq
    by_cases hgp : f64GeZero p <;> by_cases hgq : f64GeZero q
    · simp only [hgp, hgq, ite_true, reduceIte, Except.ok.injEq] at heq
      rw [setMsb_bufBE8 p hp, setMsb_bufBE8 q hq] at heq
      have hval := congrArg beNumA heq
      rw [beNumA_bufBE, beNumA_bufBE] at hval
      norm_num at hval
      rcases hgp.2 with h | h <;> rcases hgq.2 with h2 | h2 <;>
        split_ifs at hval <;> omega
    · have hq63 : 9223372036854775808 < q := by
        simp only [f64GeZero, not_and, not_or] at hgq
        have := hgq hnq
        omega
      simp only [hgp, hgq, ite_true, ite_false, reduceIte, Except.ok.injEq] at heq
      rw [setMsb_bufBE8 p hp, map_bnot_bufBE8 q hq] at heq
      have hval := congrArg beNumA heq
      rw [beNumA_bufBE, beNumA_bufBE] at hval
      norm_num at hval
      rcases hgp.2 with h | h <;> split_ifs at hval <;> omega
    · have hp63 : 9223372036854775808 < p := by
        simp only [f64GeZero, not_and, not_or] at hgp
        have := hgp hnp
        omega
      simp only [hgp, hgq, ite_true, ite_false, reduceIte, Except.ok.injEq] at heq
      rw [map_bnot_bufBE8 p hp, setMsb_bufBE8 q hq] at heq
      have hval := congrArg beNumA heq
      rw [beNumA_bufBE, beNumA_bufBE] at hval
      norm_num at hval
      rcases hgq.2 with h | h <;> split_ifs at hval <;> omega
    · have hp63 : 9223372036854775808 < p := by
        simp only [f64GeZero, not_and, not_or] at hgp
        have := hgp hnp
        omega
      have hq63 : 9223372036854775808 < q := by
        simp only [f64GeZero, not_and, not_or] at hgq
        have := hgq hnq
        omega
      simp only [hgp, hgq, ite_false, reduceIte, Except.ok.injEq] at heq
      rw [map_bnot_bufBE8 p hp, map_bnot_bufBE8 q hq] at heq
      have hval := congrArg beNumA heq
      rw [beNumA_bufBE, beNumA_bufBE] at hval
      norm_num at hval
      omega

/-- Witness for C8: the injectivity conjunct applied to the pattern of
1.0f against itself. -/
theorem C8_zero_pair_injectivity_witness :
    (1065353216 : Nat) = 1065353216 ∨
      (((1065353216 : Nat) = 0 ∨ (1065353216 : Nat) = 2147483648) ∧
        ((1065353216 : Nat) = 0 ∨ (1065353216 : Nat) = 2147483648)) :=
  C8_zero_pair_injectivity.2.2.1 1 1065353216 1065353216 (by norm_num)
    (by norm_num) (by decide) (by decide) rfl

/-! ## Order keys of the signed encodings -/

theorem signedKey8 (x : Int) (h1 : -128 ≤ x) (h2 : x ≤ 127) :
    beNumA (flipMsb [(x % 256).toNat]) = (x + 128).toNat := by
  simp only [flipMsb, beNumA_cons, beNumA, List.length_nil, pow_zero,
    Nat.mul_one, Nat.add_zero]
  rw [xor128 _ (by omega)]
  split_ifs <;> omega

theorem signedKey16 (x : Int) (h1 : -32768 ≤ x) (h2 : x ≤ 32767) :
    beNumA (flipMsb (bufBE 2 (x % 65536).toNat)) = (x + 32768).toNat := by
  have h := beNumA_flipMsb_bufBE 1 ((x % 65536).toNat)
  norm_num at h
  rw [h, xor128 _ (Nat.mod_lt _ (by norm_num))]
  split_ifs <;> omega

theorem signedKey32 (x : Int) (h1 : -2147483648 ≤ x) (h2 : x ≤ 2147483647) :
    beNumA (flipMsb (bufBE 4 (x % 4294967296).toNat))
      = (x + 2147483648).toNat := by
  have h := beNumA_flipMsb_bufBE 3 ((x % 4294967296).toNat)
  norm_num at h
  rw [h, xor128 _ (Nat.mod_lt _ (by norm_num))]
  split_ifs <;> omega

theorem signedKey64 (x : Int) (h1 : -9223372036854775808 ≤ x)
    (h2 : x ≤ 9223372036854775807) :
    beNumA (flipMsb (bufBE 8 (x % 18446744073709551616).toNat))
      = (x + 9223372036854775808).toNat := by
  have h := beNumA_flipMsb_bufBE 7 ((x % 18446744073709551616).toNat)
  norm_num at h
  rw [h, xor128 _ (Nat.mod_lt _ (by norm_num))]
  split_ifs <;> omega

/-- The float32 encoder always outputs the big-endian bytes of a single
32-bit value, characterized by branch. -/
theorem f32EncVal (e p : Nat) (hp : p < 4294967296) :
    ∃ v, from_float32 e p = .ok (bufBE 4 v) ∧ v < 4294967296 ∧
      v = (if f32GeZero p then (if p < 2147483648 then p + 2147483648 else p)
        else 4294967295 - p) := by
  by_cases hgz : f32GeZero p
  · refine ⟨_, by rw [from_float32_eval, if_pos hgz, setMsb_bufBE4 p hp],
      ?_, by rw [if_pos hgz]⟩
    split_ifs <;> omega
  · refine ⟨_, by rw [from_float32_eval, if_neg hgz, map_bnot_bufBE4 p hp],
      by omega, by rw [if_neg hgz]⟩

/-- The float64 encoder always outputs the big-endian bytes of a single
64-bit value, characterized by branch. -/
theorem f64EncVal (e p : Nat) (hp : p < 18446744073709551616) :
    ∃ v, from_float64 e p = .ok (bufBE 8 v) ∧ v < 18446744073709551616 ∧
      v = (if f64GeZero p then
        (if p < 9223372036854775808 then p + 9223372036854775808 else p)
        else 18446744073709551615 - p) := by
  by_cases hgz : f64GeZero p
  · refine ⟨_, by rw [from_float64_eval, if_pos hgz, setMsb_bufBE8 p hp],
      ?_, by rw [if_pos hgz]⟩
    split_ifs <;> omega
  · refine ⟨_, by rw [from_float64_eval, if_neg hgz, map_bnot_bufBE8 p hp],
      by omega, by rw [if_neg hgz]⟩

/-- Counterexample to C1 as frozen: on a big-endian host (endianness probe
0) order preservation fails — `1 < 256` as int16, yet
`from_int16(1) = [0x81, 0x00]` is lexicographically greater than
`from_int16(256) = [0x80, 0x01]`. -/
theorem C1_order_counterexample :
    (1 : Int) < 256 ∧
    from_int16 0 1 = .ok [129, 0] ∧
    from_int16 0 256 = .ok [128, 1] ∧
    bytesLt [129, 0] [128, 1] = false := by
  refine ⟨by norm_num, by decide, by decide, by decide⟩

/-- C1 (amended: on a little-endian host, where the endianness probe yields
1 — the 1-byte and float codecs in fact behave identically on either host):
for every domain and all values `a < b` under the domain's natural numeric
ordering (NaN excluded for the float domains, whose ordering is expressed
by the key `f32Key`/`f64Key` on bit patterns), `encode(a)` is strictly
lexicographically smaller than `encode(b)` under unsigned byte
comparison. -/
theorem C1_order_preservation :
    (∀ a b : Int, -128 ≤ a → a < b → b ≤ 127 → ∃ ba bb,
      from_int8 a = .ok ba ∧ from_int8 b = .ok bb ∧ bytesLt ba bb = true) ∧
    (∀ a b : Int, 0 ≤ a → a < b → b ≤ 255 → ∃ ba bb,
      from_uint8 a = .ok ba ∧ from_uint8 b = .ok bb ∧ bytesLt ba bb = true) ∧
    (∀ a b : Int, -32768 ≤ a → a < b → b ≤ 32767 → ∃ ba bb,
      from_int16 1 a = .ok ba ∧ from_int16 1 b = .ok bb ∧
        bytesLt ba bb = true) ∧
    (∀ a b : Int, 0 ≤ a → a < b → b ≤ 65535 → ∃ ba bb,
      from_uint16 1 a = .ok ba ∧ from_uint16 1 b = .ok bb ∧
        bytesLt ba bb = true) ∧
    (∀ a b : Int, -2147483648 ≤ a → a < b → b ≤ 2147483647 → ∃ ba bb,
      from_int32 1 a = .ok ba ∧ from_int32 1 b = .ok bb ∧
        bytesLt ba bb = true) ∧
    (∀ a b : Int, 0 ≤ a → a < b → b ≤ 4294967295 → ∃ ba bb,
      from_uint32 1 a = .ok ba ∧ from_uint32 1 b = .ok bb ∧
        bytesLt ba bb = true) ∧
    (∀ a b : Int, -9223372036854775808 ≤ a → a < b →
      b ≤ 9223372036854775807 → ∃ ba bb,
      from_int64 1 a = .ok ba ∧ from_int64 1 b = .ok bb ∧
        bytesLt ba bb = true) ∧
    (∀ a b : Int, 0 ≤ a → a < b → b ≤ 18446744073709551615 → ∃ ba bb,
      from_uint64 1 a = .ok ba ∧ from_uint64 1 b = .ok bb ∧
        bytesLt ba bb = true) ∧
    (∀ e p q, p < 4294967296 → q < 4294967296 → ¬f32IsNan p → ¬f32IsNan q →
      f32Key p < f32Key q → ∃ ba bb,
      from_float32 e p = .ok ba ∧ from_float32 e q = .ok bb ∧
        bytesLt ba bb = true) ∧
    (∀ e p q, p < 18446744073709551616 → q < 18446744073709551616 →
      ¬f64IsNan p → ¬f64IsNan q → f64Key p < f64Key q → ∃ ba bb,
      from_float64 e p = .ok ba ∧ from_float64 e q = .ok bb ∧
        bytesLt ba bb = true) := by
  refine ⟨?_, ?_, ?_, ?_, ?_, ?_, ?_, ?_, ?_, ?_⟩
  · intro a b h1 hab h2
    refine ⟨flipMsb [(a % 256).toNat], flipMsb [(b % 256).toNat],
      by unfold from_int8; rw [if_neg (by omega), if_neg (by omega)],
      by unfold from_int8; rw [if_neg (by omega), if_neg (by omega)], ?_⟩
    rw [bytesLt_eq _ _ (by simp [length_flipMsb])
        (isBytes_flipMsb (by intro y hy; simp at hy; omega))
        (isBytes_flipMsb (by intro y hy; simp at hy; omega))]
    rw [signedKey8 a (by omega) (by omega), signedKey8 b (by omega) (by omega),
      decide_eq_true_eq]
    omega
  · intro a b h1 hab h2
    refine ⟨[a.toNat], [b.toNat],
      by unfold from_uint8; rw [if_neg (by omega), if_neg (by omega)],
      by unfold from_uint8; rw [if_neg (by omega), if_neg (by omega)], ?_⟩
    simp only [bytesLt]
    rw [if_pos (by omega)]
  · intro a b h1 hab h2
    refine ⟨flipMsb (bufBE 2 (a % 65536).toNat),
      flipMsb (bufBE 2 (b % 65536).toNat),
      by unfold from_int16; rw [if_neg (by omega), encBytes_one],
      by unfold from_int16; rw [if_neg (by omega), encBytes_one], ?_⟩
    rw [bytesLt_eq _ _
        (by rw [length_flipMsb, length_flipMsb, length_bufBE, length_bufBE])
        (isBytes_flipMsb (isBytes_bufBE _ _))
        (isBytes_flipMsb (isBytes_bufBE _ _))]
    rw [signedKey16 a (by omega) (by omega),
      signedKey16 b (by omega) (by omega), decide_eq_true_eq]
    omega
  · intro a b h1 hab h2
    refine ⟨bufBE 2 a.toNat, bufBE 2 b.toNat,
      by unfold from_uint16; rw [if_neg (by omega), if_neg (by omega),
        encBytes_one],
      by unfold from_uint16; rw [if_neg (by omega), if_neg (by omega),
        encBytes_one], ?_⟩
    rw [bytesLt_bufBE 2 _ _ (by norm_num; omega) (by norm_num; omega),
      decide_eq_true_eq]
    omega
  · intro a b h1 hab h2
    refine ⟨flipMsb (bufBE 4 (a % 4294967296).toNat),
      flipMsb (bufBE 4 (b % 4294967296).toNat),
      by unfold from_int32; rw [if_neg (by omega), encBytes_one],
      by unfold from_int32; rw [if_neg (by omega), encBytes_one], ?_⟩
    rw [bytesLt_eq _ _
        (by rw [length_flipMsb, length_flipMsb, length_bufBE, length_bufBE])
        (isBytes_flipMsb (isBytes_bufBE _ _))
        (isBytes_flipMsb (isBytes_bufBE _ _))]
    rw [signedKey32 a (by omega) (by omega),
      signedKey32 b (by omega) (by omega), decide_eq_true_eq]
    omega
  · intro a b h1 hab h2
    refine ⟨bufBE 4 a.toNat, bufBE 4 b.toNat,
      by unfold from_uint32; rw [if_neg (by omega), if_neg (by omega),
        encBytes_one],
      by unfold from_uint32; rw [if_neg (by omega), if_neg (by omega),
        encBytes_one], ?_⟩
    rw [bytesLt_bufBE 4 _ _ (by norm_num; omega) (by norm_num; omega),
      decide_eq_true_eq]
    omega
  · intro a b h1 hab h2
    refine ⟨flipMsb (bufBE 8 (a % 18446744073709551616).toNat),
      flipMsb (bufBE 8 (b % 18446744073709551616).toNat),
      by unfold from_int64; rw [if_neg (by omega), encBytes_one],
      by unfold from_int64; rw [if_neg (by omega), encBytes_one], ?_⟩
    rw [bytesLt_eq _ _
        (by rw [length_flipMsb, length_flipMsb, length_bufBE, length_bufBE])
        (isBytes_flipMsb (isBytes_bufBE _ _))
        (isBytes_flipMsb (isBytes_bufBE _ _))]
    rw [signedKey64 a (by omega) (by omega),
      signedKey64 b (by omega) (by omega), decide_eq_true_eq]
    omega
  · intro a b h1 hab h2
    refine ⟨bufBE 8 a.toNat, bufBE 8 b.toNat,
      by unfold from_uint64; rw [if_neg (by omega), encBytes_one],
      by unfold from_uint64; rw [if_neg (by omega), encBytes_one], ?_⟩
    rw [bytesLt_bufBE 8 _ _ (by norm_num; omega) (by norm_num; omega),
      decide_eq_true_eq]
    omega
  · intro e p q hp hq hnp hnq hkey
    obtain ⟨vp, hep, hvp, hvpe⟩ := f32EncVal e p hp
    obtain ⟨vq, heq2, hvq, hvqe⟩ := f32EncVal e q hq
    refine ⟨_, _, hep, heq2, ?_⟩
    rw [bytesLt_bufBE 4 _ _ (by norm_num; omega) (by norm_num; omega),
      decide_eq_true_eq]
    simp only [f32Key] at hkey
    simp only [f32GeZero, f32IsNan, not_and, not_or, ne_eq, not_not]
      at hvpe hvqe hnp hnq
    split_ifs at hvpe hvqe hkey <;> omega
  · intro e p q hp hq hnp hnq hkey
    obtain ⟨vp, hep, hvp, hvpe⟩ := f64EncVal e p hp
    obtain ⟨vq, heq2, hvq, hvqe⟩ := f64EncVal e q hq
    refine ⟨_, _, hep, heq2, ?_⟩
    rw [bytesLt_bufBE 8 _ _ (by norm_num; omega) (by norm_num; omega),
      decide_eq_true_eq]
    simp only [f64Key] at hkey
    simp only [f64GeZero, f64IsNan, not_and, not_or, ne_eq, not_not]
      at hvpe hvqe hnp hnq
    split_ifs at hvpe hvqe hkey <;> omega

/-- Witness for C1: the spec's own scenarios on a little-endian host —
`encode_int8(-128)` sorts below `encode_int8(127)`, and the float64
patterns of -1.0 and 1.0 sort in numeric order. -/
theorem C1_order_preservation_witness :
    (∃ ba bb, from_int8 (-128) = .ok ba ∧ from_int8 127 = .ok bb ∧
      bytesLt ba bb = true) ∧
    (∃ ba bb, from_float64 1 13830554455654793216 = .ok ba ∧
      from_float64 1 4607182418800017408 = .ok bb ∧ bytesLt ba bb = true) :=
  ⟨C1_order_preservation.1 (-128) 127 (by norm_num) (by norm_num) (by norm_num),
    C1_order_preservation.2.2.2.2.2.2.2.2.2 1 13830554455654793216
      4607182418800017408 (by norm_num) (by norm_num) (by decide) (by decide)
      (by decide)⟩

end Numenc
